import Mathlib

/-!
Verification of the offline write queue (`pendingQueue`) of the
telegram-ui-builder repository: durable queue store plus replay engine.

The embedding models the JavaScript runtime shallowly:
* `JVal` is the type of values produced by `JSON.parse`;
* `Raw` is a stored string as seen by a reader (empty, unparseable, or
  parseable to a `JVal`);
* `World` carries the process-wide mutable state: the `localStorage`
  contents, the in-memory fallback map, the published telemetry events and
  the id-generation supply (id generation is modelled as a fresh-name
  counter, standing in for `crypto.randomUUID` and its fallback);
* `Config` fixes the environment of a scenario: whether `localStorage`
  exists, how `setItem` behaves (succeeds, throws a given error), and the
  current clock value (`Date.now()` is modelled as a constant per scenario;
  storage reads are modelled as total lookups).
Fallible operations return `Except`: a `.error` is a thrown exception
crossing the function boundary.
-/

namespace PendingQueue

/-- JSON-like runtime values (output of `JSON.parse`). Numbers are modelled
as integers, which covers every numeric value the queue code produces. -/
inductive JVal where
  | null : JVal
  | bool : Bool → JVal
  | num : Int → JVal
  | str : String → JVal
  | arr : List JVal → JVal
  | obj : List (String × JVal) → JVal

mutual

/-- Structural equality on runtime values (decidable-equality kernel). -/
def JVal.beq : JVal → JVal → Bool
  | .null, .null => true
  | .bool x, .bool y => x == y
  | .num x, .num y => x == y
  | .str x, .str y => x == y
  | .arr x, .arr y => JVal.beqList x y
  | .obj x, .obj y => JVal.beqFields x y
  | _, _ => false

def JVal.beqList : List JVal → List JVal → Bool
  | [], [] => true
  | x :: xs, y :: ys => JVal.beq x y && JVal.beqList xs ys
  | _, _ => false

def JVal.beqFields : List (String × JVal) → List (String × JVal) → Bool
  | [], [] => true
  | (k1, v1) :: xs, (k2, v2) :: ys =>
      k1 == k2 && JVal.beq v1 v2 && JVal.beqFields xs ys
  | _, _ => false

end

mutual

theorem JVal.beqSound : ∀ a b : JVal, JVal.beq a b = true → a = b
  | .null, .null, _ => rfl
  | .null, .bool _, h => Bool.noConfusion h
  | .null, .num _, h => Bool.noConfusion h
  | .null, .str _, h => Bool.noConfusion h
  | .null, .arr _, h => Bool.noConfusion h
  | .null, .obj _, h => Bool.noConfusion h
  | .bool _, .null, h => Bool.noConfusion h
  | .bool x, .bool y, h => congrArg JVal.bool (by simpa [JVal.beq] using h)
  | .bool _, .num _, h => Bool.noConfusion h
  | .bool _, .str _, h => Bool.noConfusion h
  | .bool _, .arr _, h => Bool.noConfusion h
  | .bool _, .obj _, h => Bool.noConfusion h
  | .num _, .null, h => Bool.noConfusion h
  | .num _, .bool _, h => Bool.noConfusion h
  | .num x, .num y, h => congrArg JVal.num (by simpa [JVal.beq] using h)
  | .num _, .str _, h => Bool.noConfusion h
  | .num _, .arr _, h => Bool.noConfusion h
  | .num _, .obj _, h => Bool.noConfusion h
  | .str _, .null, h => Bool.noConfusion h
  | .str _, .bool _, h => Bool.noConfusion h
  | .str _, .num _, h => Bool.noConfusion h
  | .str x, .str y, h => congrArg JVal.str (by simpa [JVal.beq] using h)
  | .str _, .arr _, h => Bool.noConfusion h
  | .str _, .obj _, h => Bool.noConfusion h
  | .arr _, .null, h => Bool.noConfusion h
  | .arr _, .bool _, h => Bool.noConfusion h
  | .arr _, .num _, h => Bool.noConfusion h
  | .arr _, .str _, h => Bool.noConfusion h
  | .arr x, .arr y, h => congrArg JVal.arr (JVal.beqListSound x y h)
  | .arr _, .obj _, h => Bool.noConfusion h
  | .obj _, .null, h => Bool.noConfusion h
  | .obj _, .bool _, h => Bool.noConfusion h
  | .obj _, .num _, h => Bool.noConfusion h
  | .obj _, .str _, h => Bool.noConfusion h
  | .obj _, .arr _, h => Bool.noConfusion h
  | .obj x, .obj y, h => congrArg JVal.obj (JVal.beqFieldsSound x y h)

theorem JVal.beqListSound : ∀ a b : List JVal, JVal.beqList a b = true → a = b
  | [], [], _ => rfl
  | [], _ :: _, h => Bool.noConfusion h
  | _ :: _, [], h => Bool.noConfusion h
  | x :: xs, y :: ys, h => by
      have h2 : JVal.beq x y = true ∧ JVal.beqList xs ys = true := by
        simpa [JVal.beqList, Bool.and_eq_true] using h
      rw [JVal.beqSound x y h2.1, JVal.beqListSound xs ys h2.2]

theorem JVal.beqFieldsSound :
    ∀ a b : List (String × JVal), JVal.beqFields a b = true → a = b
  | [], [], _ => rfl
  | [], _ :: _, h => Bool.noConfusion h
  | _ :: _, [], h => Bool.noConfusion h
  | (k1, v1) :: xs, (k2, v2) :: ys, h => by
      have h2 : (k1 == k2) = true ∧ JVal.beq v1 v2 = true ∧
          JVal.beqFields xs ys = true := by
        simpa [JVal.beqFields, Bool.and_eq_true, and_assoc] using h
      have hk : k1 = k2 := by simpa using h2.1
      rw [hk, JVal.beqSound v1 v2 h2.2.1, JVal.beqFieldsSound xs ys h2.2.2]

end

mutual

theorem JVal.beqRefl : ∀ a : JVal, JVal.beq a a = true
  | .null => rfl
  | .bool x => by simp [JVal.beq]
  | .num x => by simp [JVal.beq]
  | .str x => by simp [JVal.beq]
  | .arr x => JVal.beqListRefl x
  | .obj x => JVal.beqFieldsRefl x

theorem JVal.beqListRefl : ∀ a : List JVal, JVal.beqList a a = true
  | [] => rfl
  | x :: xs => by
      simp only [JVal.beqList, Bool.and_eq_true]
      exact ⟨JVal.beqRefl x, JVal.beqListRefl xs⟩

theorem JVal.beqFieldsRefl : ∀ a : List (String × JVal), JVal.beqFields a a = true
  | [] => rfl
  | (k, v) :: xs => by
      simp only [JVal.beqFields, Bool.and_eq_true]
      exact ⟨⟨by simp, JVal.beqRefl v⟩, JVal.beqFieldsRefl xs⟩

end

instance : DecidableEq JVal := fun a b =>
  if h : JVal.beq a b = true then .isTrue (JVal.beqSound a b h)
  else .isFalse (fun he => h (he ▸ JVal.beqRefl a))

/-- JavaScript truthiness test (`!v` is `jsFalsy v`). -/
def jsFalsy : JVal → Bool
  | .null => true
  | .bool b => !b
  | .num n => n == 0
  | .str s => s == ""
  | .arr _ => false
  | .obj _ => false

/-- `typeof v === "object"` (true for objects, arrays and `null`). -/
def jsTypeofObject : JVal → Bool
  | .null => true
  | .arr _ => true
  | .obj _ => true
  | _ => false

/-- Property read `v.k`: `none` models `undefined`. -/
def JVal.getField (j : JVal) (k : String) : Option JVal :=
  match j with
  | .obj fs => fs.lookup k
  | _ => none

/-- The `in` operator restricted to the object shapes the source applies it
to (it is only used behind a `typeof v === "object"` guard). -/
def jsHasField (j : JVal) (k : String) : Bool :=
  match j with
  | .obj fs => (fs.lookup k).isSome
  | _ => false

mutual
/-- JavaScript `String(v)` coercion. -/
def jsToString : JVal → String
  | .null => "null"
  | .bool b => cond b "true" "false"
  | .num n => toString n
  | .str s => s
  | .obj _ => "[object Object]"
  | .arr xs => jsJoinList xs

/-- `Array.prototype.toString` (comma join, `null` rendered empty). -/
def jsJoinList : List JVal → String
  | [] => ""
  | [x] => match x with | .null => "" | v => jsToString v
  | x :: y :: xs =>
      (match x with | .null => "" | v => jsToString v) ++ "," ++ jsJoinList (y :: xs)
end

/-- One entry of a `PendingItem`'s bounded failure log. -/
structure PendingFailure where
  «at» : Int
  message : String
  requestId : Option String
deriving DecidableEq

/-- A durably queued operation. `id`, `kind` and `payload` are kept as raw
runtime values because the source validates only their presence on read
(the hydration spread `{...item}` keeps whatever was stored). -/
structure PendingItem where
  id : JVal
  kind : JVal
  payload : JVal
  createdAt : Int
  attempts : Int
  lastError : Option String
  lastAttemptAt : Option Int
  failures : Option (List PendingFailure)
deriving DecidableEq

def STORAGE_VERSION : String := "v2"

def buildKey (userId : Option String) : String :=
  "pending_ops_" ++ STORAGE_VERSION ++ "_" ++ userId.getD "anon"

/-- The unversioned v1 key read once for migration. -/
def legacyKey (userId : Option String) : String :=
  "pending_ops_" ++ userId.getD "anon"

def MAX_FAILURE_LOG : Nat := 5

def MAX_QUEUE_SIZE : Nat := 100

/-- A stored string as a reader sees it. -/
inductive Raw where
  | emptyStr : Raw
  | malformed : Raw
  | val : JVal → Raw
deriving DecidableEq

/-- An error value thrown by the storage backend. -/
structure JsError where
  name : String
  message : String
  code : Option Int
deriving DecidableEq

/-- Behaviour of `localStorage.setItem` in a scenario. -/
inductive SetOutcome where
  | ok : SetOutcome
  | err : JsError → SetOutcome
deriving DecidableEq

/-- Static environment of a scenario. -/
structure Config where
  hasLocalStorage : Bool
  setOutcome : SetOutcome
  timeNow : Int
deriving DecidableEq

structure SyncStatus where
  state : String
  requestId : String
  message : String
  «at» : Int
deriving DecidableEq

/-- A telemetry event as handed to `publishSyncEvent`. -/
structure SyncEvent where
  scope : String
  status : SyncStatus
deriving DecidableEq

/-- Process-wide mutable state. -/
structure World where
  locals : String → Option Raw
  fallback : String → Option (List PendingItem)
  events : List SyncEvent
  nextId : Nat

def emptyWorld : World :=
  { locals := fun _ => none, fallback := fun _ => none, events := [], nextId := 0 }

/-- Pointwise map update. -/
def upd {α : Type} (f : String → Option α) (k : String) (v : Option α) :
    String → Option α :=
  fun k2 => if k2 = k then v else f k2

/-- Fresh-id supply standing in for `genId`. -/
def genId (w : World) : String × World :=
  ("pending_" ++ toString w.nextId, { w with nextId := w.nextId + 1 })

/-- `publishSyncEvent` (fire-and-forget, never throws). -/
def publishSyncEvent (w : World) (ev : SyncEvent) : World :=
  { w with events := w.events ++ [ev] }

/-- A thrown `PersistError` (message plus underlying cause). -/
structure PersistErr where
  message : String
  cause : JsError
deriving DecidableEq

def persistErrMessage : String := "Failed to persist offline queue. Storage may be full."

/-- Substring test used to embed the quota-detection heuristic. -/
def strContains (s sub : String) : Bool := decide (sub.toList <:+: s.toList)

/-- ASCII case folding (`toLowerCase` on the ASCII error strings the
heuristic inspects). -/
def charLower (c : Char) : Char :=
  if c.isUpper then Char.ofNat (c.toNat + 32) else c

def asciiLower (s : String) : String := ⟨s.data.map charLower⟩

def isQuotaExceeded (e : JsError) : Bool :=
  e.name == "QuotaExceededError" || e.name == "NS_ERROR_DOM_QUOTA_REACHED" ||
    e.code == some 22 || e.code == some 1014

def isStorageFullError (e : JsError) : Bool :=
  if isQuotaExceeded e then true
  else
    let combined := asciiLower (e.name ++ " " ++ e.message)
    (strContains combined "quota" && strContains combined "exceed") ||
      (strContains combined "storage" &&
        (strContains combined "full" || strContains combined "quota" ||
          strContains combined "exceed"))

/-- FIFO size cap: returns the kept tail and the number of dropped items. -/
def trimQueue (items : List PendingItem) : List PendingItem × Nat :=
  if items.length ≤ MAX_QUEUE_SIZE then (items, 0)
  else (items.drop (items.length - MAX_QUEUE_SIZE), items.length - MAX_QUEUE_SIZE)

/-- The telemetry event emitted by `notifyQueueTrim`. -/
def trimEvent (timeNow : Int) (dropped : Nat) : SyncEvent :=
  ⟨"queue", ⟨"error", "queue-trim",
    "Offline queue exceeded " ++ toString MAX_QUEUE_SIZE ++ " entries; dropped " ++
      toString dropped ++ ".", timeNow⟩⟩

def notifyQueueTrim (timeNow : Int) (dropped : Nat) (w : World) : World :=
  if dropped = 0 then w else publishSyncEvent w (trimEvent timeNow dropped)

/-- The telemetry event emitted when a quota error diverts to memory. -/
def quotaEvent (timeNow : Int) : SyncEvent :=
  ⟨"queue", ⟨"error", "queue-quota",
    "Offline queue stored in memory due to storage quota limit.", timeNow⟩⟩

/-- JSON encoding of a failure entry (`JSON.stringify` omits `undefined`). -/
def encodeFailure (f : PendingFailure) : JVal :=
  .obj ([("at", .num f.«at»), ("message", .str f.message)] ++
    (match f.requestId with | none => [] | some r => [("requestId", .str r)]))

def optField (k : String) (v : Option JVal) : List (String × JVal) :=
  match v with | none => [] | some j => [(k, j)]

/-- JSON encoding of one queued item as written by `persist`. -/
def encodeItem (it : PendingItem) : JVal :=
  .obj ([("id", it.id), ("kind", it.kind), ("payload", it.payload),
    ("createdAt", .num it.createdAt), ("attempts", .num it.attempts)] ++
    optField "lastError" (it.lastError.map .str) ++
    optField "lastAttemptAt" (it.lastAttemptAt.map .num) ++
    optField "failures" (it.failures.map (fun fs => .arr (fs.map encodeFailure))))

def encodeItems (items : List PendingItem) : JVal := .arr (items.map encodeItem)

/-- `persist`: trim, notify, then write. A thrown non-quota error surfaces
as `.error`; a quota error diverts the list to the in-memory fallback. -/
def persist (cfg : Config) (items : List PendingItem) (userId : Option String)
    (w : World) : World × Except PersistErr Bool :=
  if cfg.hasLocalStorage = false then (w, .ok false)
  else
    let t := trimQueue items
    let w1 := notifyQueueTrim cfg.timeNow t.2 w
    let key := buildKey userId
    match cfg.setOutcome with
    | .ok =>
        ({ w1 with locals := upd w1.locals key (some (.val (encodeItems t.1))),
                   fallback := upd w1.fallback key none }, .ok true)
    | .err e =>
        if isStorageFullError e then
          (publishSyncEvent
            { w1 with fallback := upd w1.fallback key (some t.1) }
            (quotaEvent cfg.timeNow), .ok false)
        else (w1, .error ⟨persistErrMessage, e⟩)

/-- `clearPendingOps` (best effort, never throws). -/
def clearPendingOps (cfg : Config) (userId : Option String) (w : World) : World :=
  let w1 := { w with fallback := upd w.fallback (buildKey userId) none }
  if cfg.hasLocalStorage then
    { w1 with locals := upd w1.locals (buildKey userId) none }
  else w1

/-- `String(v ?? dflt)` for a possibly missing property value. -/
def jsStringOr (v : Option JVal) (dflt : String) : String :=
  match v with
  | none => dflt
  | some .null => dflt
  | some j => jsToString j

/-- The filter applied to parsed legacy entries before conversion. -/
def legacyEntryKept (p : JVal) : Bool :=
  !jsFalsy p && jsTypeofObject p && (jsHasField p "kind" || jsHasField p "payload")

/-- The guard on `p.payload`: a property access on a `null` or missing
payload throws a `TypeError` (modelled as `.error`), which aborts the whole
migration into `reviveLegacy`'s catch. -/
def payloadOrThrow (v : Option JVal) : Except Unit JVal :=
  match v with
  | none => .error ()
  | some .null => .error ()
  | some payload => .ok payload

/-- The converted form of a legacy `save` entry (defaults filled in). -/
def migratedSave (userId : Option String) (timeNow : Int) (payload : JVal)
    (id : String) : PendingItem :=
  { id := .str id, kind := .str "save",
    payload := .obj (
      (match userId with
       | none => []
       | some u => [("user_id", JVal.str u)]) ++
      [("is_public", JVal.bool false),
       ("name", JVal.str (jsStringOr (payload.getField "name") "Untitled")),
       ("message_content",
         JVal.str (jsStringOr (payload.getField "message_content") ""))] ++
      optField "keyboard" (payload.getField "keyboard")),
    createdAt := timeNow, attempts := 0,
    lastError := none, lastAttemptAt := none, failures := none }

/-- The converted form of a legacy `update` entry (defaults filled in). -/
def migratedUpdate (timeNow : Int) (payload : JVal) (id : String) : PendingItem :=
  { id := .str id, kind := .str "update",
    payload := .obj
      [("id", JVal.str (jsStringOr (payload.getField "id") "")),
       ("update", .obj
         ([("message_content",
             JVal.str (jsStringOr (payload.getField "message_content") ""))] ++
          optField "keyboard" (payload.getField "keyboard")))],
    createdAt := timeNow, attempts := 0,
    lastError := none, lastAttemptAt := none, failures := none }

/-- Conversion of one (filtered) legacy entry. -/
def migrateEntry (userId : Option String) (timeNow : Int) (p : JVal) (w : World) :
    Except Unit (Option PendingItem × World) :=
  if p.getField "kind" == some (JVal.str "save") then
    match payloadOrThrow (p.getField "payload") with
    | .error e => .error e
    | .ok payload =>
      let g := genId w
      .ok (some (migratedSave userId timeNow payload g.1), g.2)
  else if p.getField "kind" == some (JVal.str "update") then
    match payloadOrThrow (p.getField "payload") with
    | .error e => .error e
    | .ok payload =>
      let g := genId w
      .ok (some (migratedUpdate timeNow payload g.1), g.2)
  else .ok (none, w)

/-- `.map` + `.filter(Boolean)` over the filtered legacy entries, threading
the id supply; a thrown conversion error aborts the whole list. -/
def migrateAll (userId : Option String) (timeNow : Int) :
    List JVal → World → Except Unit (List PendingItem × World)
  | [], w => .ok ([], w)
  | p :: ps, w =>
    match migrateEntry userId timeNow p w with
    | .error e => .error e
    | .ok (oi, w1) =>
      match migrateAll userId timeNow ps w1 with
      | .error e => .error e
      | .ok (rest, w2) =>
          .ok ((match oi with | none => rest | some it => it :: rest), w2)

/-- One-time legacy (v1) migration. Every failure path is absorbed by the
surrounding `try`/`catch` and yields `[]`. -/
def reviveLegacy (cfg : Config) (userId : Option String) (w : World) :
    World × List PendingItem :=
  if cfg.hasLocalStorage = false then (w, [])
  else
    match w.locals (legacyKey userId) with
    | none => (w, [])
    | some .emptyStr => (w, [])
    | some .malformed => (w, [])
    | some (.val (.arr parsed)) =>
        match migrateAll userId cfg.timeNow (parsed.filter legacyEntryKept) w with
        | .error _ => (w, [])
        | .ok (migrated, w1) =>
          if 0 < migrated.length then
            match persist cfg migrated userId w1 with
            | (w2, .ok _) =>
                ({ w2 with locals := upd w2.locals (legacyKey userId) none },
                 migrated)
            | (w2, .error _) => (w2, [])
          else (w1, migrated)
    | some (.val _) => (w, [])

/-- `normalizeFailures`' per-entry validation. -/
def normalizeFailureEntry (f : JVal) : Option PendingFailure :=
  if jsFalsy f || !jsTypeofObject f then none
  else
    match f.getField "at", f.getField "message" with
    | some (.num a), some (.str m) =>
        some ⟨a, m, match f.getField "requestId" with
                    | some (.str r) => some r
                    | _ => none⟩
    | _, _ => none

/-- Back-compat hydration of a failure log from `lastError`/`lastAttemptAt`
(a falsy `lastError` produces nothing). -/
def fallbackFailures (msg : Option String) (fa : Option Int) :
    Option (List PendingFailure) :=
  match msg, fa with
  | some m, some a => if m == "" then none else some [⟨a, m, none⟩]
  | _, _ => none

def normalizeFailures (item : Option JVal) (msg : Option String) (fa : Option Int) :
    Option (List PendingFailure) :=
  match item with
  | none => fallbackFailures msg fa
  | some j =>
    if jsFalsy j then fallbackFailures msg fa
    else
      match j with
      | .arr fs =>
          let entries := fs.filterMap normalizeFailureEntry
          if 0 < entries.length then
            some (entries.drop (entries.length - MAX_FAILURE_LOG))
          else fallbackFailures msg fa
      | _ => fallbackFailures msg fa

/-- Hydration of one stored entry in `readPendingOps` (shape check,
defaults, failure-log normalization). -/
def decodeEntry (timeNow : Int) (item : JVal) : Option PendingItem :=
  if jsFalsy item || !jsTypeofObject item then none
  else if !(jsHasField item "id" && jsHasField item "kind") then none
  else
    let attempts := match item.getField "attempts" with
                    | some (.num n) => n | _ => 0
    let createdAt := match item.getField "createdAt" with
                     | some (.num n) => n | _ => timeNow
    let lastAttemptAt := match item.getField "lastAttemptAt" with
                         | some (.num n) => some n | _ => none
    let lastError := match item.getField "lastError" with
                     | some (.str s) => some s | _ => none
    some {
      id := (item.getField "id").getD .null,
      kind := (item.getField "kind").getD .null,
      payload := (item.getField "payload").getD .null,
      createdAt := createdAt, attempts := attempts,
      lastError := lastError, lastAttemptAt := lastAttemptAt,
      failures := normalizeFailures (item.getField "failures") lastError lastAttemptAt }

/-- `readPendingOps`: serve the in-memory fallback if active, otherwise
read, parse, validate, trim (re-persisting on trim) — never throws. -/
def readPendingOps (cfg : Config) (userId : Option String) (w : World) :
    World × List PendingItem :=
  let key := buildKey userId
  match w.fallback key with
  | some items => (w, items)
  | none =>
    if cfg.hasLocalStorage = false then (w, [])
    else
      match w.locals key with
      | none => reviveLegacy cfg userId w
      | some .emptyStr => reviveLegacy cfg userId w
      | some .malformed => (w, [])
      | some (.val (.arr parsed)) =>
          let hydrated := parsed.filterMap (decodeEntry cfg.timeNow)
          let t := trimQueue hydrated
          if 0 < t.2 then
            match persist cfg t.1 userId w with
            | (w1, .ok _) => (w1, t.1)
            | (w1, .error _) => (w1, [])
          else (w, t.1)
      | some (.val _) => (w, [])

/-- `enqueueSaveOperation`: read-modify-write under the lock (the lock is
left implicit — state passing already serializes the model). A fatal
persistence failure propagates as `.error`. -/
def enqueueSaveOperation (cfg : Config) (payload : JVal) (userId : Option String)
    (w : World) : World × Except PersistErr PendingItem :=
  let r := readPendingOps cfg userId w
  let g := genId r.1
  let op : PendingItem := {
    id := .str g.1, kind := .str "save", payload := payload,
    createdAt := cfg.timeNow, attempts := 0,
    lastError := none, lastAttemptAt := none, failures := some [] }
  match persist cfg (r.2 ++ [op]) userId g.2 with
  | (w3, .ok _) => (w3, .ok op)
  | (w3, .error e) => (w3, .error e)

/-- The de-dup predicate of `enqueueUpdateOperation` (strict equality of
the stored `payload.id` with the new target id). -/
def isUpdateFor (pid : String) (it : PendingItem) : Bool :=
  it.kind == JVal.str "update" && it.payload.getField "id" == some (JVal.str pid)

/-- `enqueueUpdateOperation`: replaces any queued update with the same
target id, then appends the new item. -/
def enqueueUpdateOperation (cfg : Config) (pid : String) (updatePayload : JVal)
    (userId : Option String) (w : World) : World × Except PersistErr PendingItem :=
  let r := readPendingOps cfg userId w
  let nextQueue := r.2.filter (fun it => !isUpdateFor pid it)
  let g := genId r.1
  let op : PendingItem := {
    id := .str g.1, kind := .str "update",
    payload := .obj [("id", JVal.str pid), ("update", updatePayload)],
    createdAt := cfg.timeNow, attempts := 0,
    lastError := none, lastAttemptAt := none, failures := some [] }
  match persist cfg (nextQueue ++ [op]) userId g.2 with
  | (w3, .ok _) => (w3, .ok op)
  | (w3, .error e) => (w3, .error e)

/-- A value rejected by the injected `execute` callback (modelled as an
`Error`-like value: best-effort `message` plus optional `requestId`). -/
structure ExecError where
  message : String
  requestId : Option String
deriving DecidableEq

/-- Trace of the callback and collaborator invocations of one `process`
run. Callbacks are injected observers; the run records their invocation
arguments in order instead of calling functions. -/
structure RunLog where
  successes : List PendingItem
  itemFailures : List (PendingItem × Int × Option Int)
  permanentFailures : List (PendingItem × String)
  backoffCalls : List Int
  retryWaits : List (Int × Int)
deriving DecidableEq

def emptyLog : RunLog := ⟨[], [], [], [], []⟩

/-- Options of `processPendingOps`. `delayFn` stands for the imported
`computeBackoffDelay` collaborator (base ms, zero-based attempt index);
the run log records every invocation's attempt index. -/
structure ProcOpts where
  userId : Option String
  maxAttempts : Option Int
  backoffMs : Option Int
  delayFn : Int → Int → Int
  execute : PendingItem → Except ExecError Unit
  aborted : Bool

/-- Result of a `process` run: normal return, a propagated exception, or
fuel exhaustion (ruled out by `processGo_ok` for the fuel
`processPendingOps` supplies). -/
inductive PRes where
  | ok : List PendingItem → World → RunLog → PRes
  | thrown : PersistErr → World → RunLog → PRes
  | outOfFuel : PRes

def PRes.queueOut : PRes → Option (List PendingItem)
  | .ok q _ _ => some q
  | _ => none

def PRes.logOut : PRes → Option RunLog
  | .ok _ _ l => some l
  | .thrown _ _ l => some l
  | .outOfFuel => none

def PRes.eventsOut : PRes → Option (List SyncEvent)
  | .ok _ w _ => some w.events
  | .thrown _ w _ => some w.events
  | .outOfFuel => none

def PRes.isThrown : PRes → Bool
  | .thrown _ _ _ => true
  | _ => false

/-- `queue[0] = x` (JavaScript creates the slot even on an empty array). -/
def jsSetHead (q : List PendingItem) (x : PendingItem) : List PendingItem :=
  match q with
  | [] => [x]
  | _ :: t => x :: t

/-- `queue.splice(i, 1)` at the loop's constant index `i = 0`. -/
def jsDropHead (q : List PendingItem) : List PendingItem := q.tail

/-- Outcome of the shared failure handler (the `catch` block). -/
inductive FailStep where
  | thrown : PersistErr → World → RunLog → FailStep
  | brk : List PendingItem → World → RunLog → FailStep
  | cont : List PendingItem → World → RunLog → FailStep

/-- Append an entry to a failure log, keeping the last `MAX_FAILURE_LOG`
entries (`[...log, entry].slice(-MAX_FAILURE_LOG)`). -/
def cappedAppend (fs : List PendingFailure) (f : PendingFailure) :
    List PendingFailure :=
  (fs ++ [f]).drop ((fs ++ [f]).length - MAX_FAILURE_LOG)

/-- The item state recorded by the `catch` block after one more failure. -/
def failedItem (item : PendingItem) (errMsg : String) (errReqId : Option String)
    (t : Int) : PendingItem :=
  { item with attempts := item.attempts + 1, lastError := some errMsg,
              lastAttemptAt := some t,
              failures := some (cappedAppend (item.failures.getD [])
                ⟨t, errMsg, errReqId⟩) }

/-- The telemetry event published for each per-item execution failure. -/
def failEvent (item : PendingItem) (attempts maxAttempts : Int) (errMsg : String)
    (errReqId : Option String) (t : Int) : SyncEvent :=
  ⟨"queue", ⟨"error", errReqId.getD (jsToString item.id),
    jsToString item.kind ++ " " ++ jsToString item.id ++ " failed (" ++
      toString attempts ++ "/" ++ toString maxAttempts ++ "): " ++ errMsg, t⟩⟩

/-- The `catch` block of the replay loop: record the failure on the item,
compute the backoff delay, publish telemetry, then either drop the item
(attempt budget exhausted) or write it back and schedule a retry. `q` is
the loop's array at catch time (the item may already have been spliced out
if the failure came from the success path's `persist`). -/
def handleFailure (cfg : Config) (maxAttempts backoffMs : Int)
    (delayFn : Int → Int → Int) (userId : Option String) (aborted : Bool)
    (item : PendingItem) (q : List PendingItem) (errMsg : String)
    (errReqId : Option String) (w : World) (log : RunLog) : FailStep :=
  let attempts := item.attempts + 1
  let updated := failedItem item errMsg errReqId cfg.timeNow
  let delayMs := delayFn backoffMs (attempts - 1)
  let log1 := { log with backoffCalls := log.backoffCalls ++ [attempts - 1] }
  let w1 := publishSyncEvent w
    (failEvent item attempts maxAttempts errMsg errReqId cfg.timeNow)
  if maxAttempts ≤ attempts then
    let q1 := jsDropHead q
    match persist cfg q1 userId w1 with
    | (w2, .error e) => .thrown e w2 log1
    | (w2, .ok _) =>
        .cont q1 w2
          { log1 with
            itemFailures := log1.itemFailures ++ [(updated, attempts, none)],
            permanentFailures := log1.permanentFailures ++ [(updated, errMsg)] }
  else
    let q1 := jsSetHead q updated
    match persist cfg q1 userId w1 with
    | (w2, .error e) => .thrown e w2 log1
    | (w2, .ok _) =>
        let log2 := { log1 with
          itemFailures := log1.itemFailures ++ [(updated, attempts, some delayMs)] }
        if aborted then .brk q1 w2 log2
        else .cont q1 w2
          { log2 with retryWaits := log2.retryWaits ++ [(attempts - 1, delayMs)] }

/-- The replay loop of `processPendingOps`. The loop index is constantly 0
(the source never increments `i`; removal and write-back both happen at the
current position), so the loop processes the head of the remaining list.
`fuel` is a Lean-side bound on the number of iterations; `processPendingOps`
supplies a provably sufficient amount. -/
def processGo (cfg : Config) (maxAttempts backoffMs : Int)
    (delayFn : Int → Int → Int) (execute : PendingItem → Except ExecError Unit)
    (userId : Option String) (aborted : Bool) :
    Nat → List PendingItem → World → RunLog → PRes
  | _, [], w, log => .ok [] w log
  | 0, _ :: _, _, _ => .outOfFuel
  | fuel + 1, item :: rest, w, log =>
    if aborted then .ok (item :: rest) w log
    else
      match execute item with
      | .ok _ =>
        match persist cfg rest userId w with
        | (w1, .ok _) =>
            processGo cfg maxAttempts backoffMs delayFn execute userId aborted
              fuel rest w1 { log with successes := log.successes ++ [item] }
        | (w1, .error _) =>
          match handleFailure cfg maxAttempts backoffMs delayFn userId aborted
              item rest persistErrMessage none w1 log with
          | .thrown pe w2 log2 => .thrown pe w2 log2
          | .brk q w2 log2 => .ok q w2 log2
          | .cont q w2 log2 =>
              processGo cfg maxAttempts backoffMs delayFn execute userId aborted
                fuel q w2 log2
      | .error err =>
        match handleFailure cfg maxAttempts backoffMs delayFn userId aborted
            item (item :: rest) err.message err.requestId w log with
        | .thrown pe w2 log2 => .thrown pe w2 log2
        | .brk q w2 log2 => .ok q w2 log2
        | .cont q w2 log2 =>
            processGo cfg maxAttempts backoffMs delayFn execute userId aborted
              fuel q w2 log2

/-- Iteration bound contributed by one queued item. -/
def weight (maxAttempts : Int) (it : PendingItem) : Nat :=
  1 + (maxAttempts - it.attempts).toNat

/-- Iteration bound for a whole queue. -/
def queueFuel (maxAttempts : Int) (q : List PendingItem) : Nat :=
  (q.map (weight maxAttempts)).sum

/-- `processPendingOps`: resolve defaults, load the queue, run the loop. -/
def processPendingOps (cfg : Config) (opts : ProcOpts) (w : World) : PRes :=
  let maxAttempts := opts.maxAttempts.getD 3
  let backoffMs := opts.backoffMs.getD 400
  let r := readPendingOps cfg opts.userId w
  processGo cfg maxAttempts backoffMs opts.delayFn opts.execute opts.userId
    opts.aborted (queueFuel maxAttempts r.2) r.2 r.1 emptyLog

/-! ### Round-trip of the JSON encoding through hydration -/

/-- What hydration makes of a stored failure log: a non-empty valid log is
kept (capped to the last 5); an empty or missing one is reconstructed from
`lastError`/`lastAttemptAt`. -/
def normFailures (fs : Option (List PendingFailure)) (msg : Option String)
    (fa : Option Int) : Option (List PendingFailure) :=
  match fs with
  | some l =>
      if 0 < l.length then some (l.drop (l.length - MAX_FAILURE_LOG))
      else fallbackFailures msg fa
  | none => fallbackFailures msg fa

/-- The observable effect of one persist/read round trip on an item. -/
def normItem (it : PendingItem) : PendingItem :=
  { it with failures := normFailures it.failures it.lastError it.lastAttemptAt }

def mkPI (i k p : JVal) (c a : Int) (le : Option String) (la : Option Int)
    (fs : Option (List PendingFailure)) : PendingItem :=
  ⟨i, k, p, c, a, le, la, fs⟩

theorem normalizeFailureEntry_encode (f : PendingFailure) :
    normalizeFailureEntry (encodeFailure f) = some f := by
  rcases f with ⟨a, m, r⟩
  rcases r with _ | r <;> rfl

theorem filterMap_encodeFailure (fs : List PendingFailure) :
    List.filterMap (normalizeFailureEntry ∘ encodeFailure) fs = fs := by
  have h : (normalizeFailureEntry ∘ encodeFailure) = some := by
    funext f
    exact normalizeFailureEntry_encode f
  rw [h, List.filterMap_some]

theorem normalizeFailures_encoded (fs : List PendingFailure) (msg : Option String)
    (fa : Option Int) :
    normalizeFailures (some (.arr (fs.map encodeFailure))) msg fa =
      normFailures (some fs) msg fa := by
  simp [normalizeFailures, normFailures, jsFalsy, List.filterMap_map,
    filterMap_encodeFailure]

theorem decodeEntry_encodeItem (t : Int) (it : PendingItem) :
    decodeEntry t (encodeItem it) = some (normItem it) := by
  rcases it with ⟨id, kind, payload, c, a, le, la, fs⟩
  cases le with
  | none =>
    cases la with
    | none =>
      cases fs with
      | none => rfl
      | some fs =>
          exact congrArg (fun o => some (mkPI id kind payload c a none none o))
            (normalizeFailures_encoded fs none none)
    | some la =>
      cases fs with
      | none => rfl
      | some fs =>
          exact congrArg (fun o => some (mkPI id kind payload c a none (some la) o))
            (normalizeFailures_encoded fs none (some la))
  | some le =>
    cases la with
    | none =>
      cases fs with
      | none => rfl
      | some fs =>
          exact congrArg (fun o => some (mkPI id kind payload c a (some le) none o))
            (normalizeFailures_encoded fs (some le) none)
    | some la =>
      cases fs with
      | none => rfl
      | some fs =>
          exact congrArg
            (fun o => some (mkPI id kind payload c a (some le) (some la) o))
            (normalizeFailures_encoded fs (some le) (some la))

theorem decodeItems_encodeItems (t : Int) (q : List PendingItem) :
    (q.map encodeItem).filterMap (decodeEntry t) = q.map normItem := by
  rw [List.filterMap_map]
  have h : (decodeEntry t ∘ encodeItem) = (fun it => some (normItem it)) := by
    funext it
    exact decodeEntry_encodeItem t it
  rw [h]
  rw [show (fun it => some (normItem it)) = some ∘ normItem from rfl]
  rw [← List.filterMap_map, List.filterMap_some]

theorem normFailures_normFailures (fs : Option (List PendingFailure))
    (msg : Option String) (fa : Option Int) :
    normFailures (normFailures fs msg fa) msg fa = normFailures fs msg fa := by
  have hfb : normFailures (fallbackFailures msg fa) msg fa = fallbackFailures msg fa := by
    rcases msg with _ | m
    · rfl
    · rcases fa with _ | a
      · rfl
      · by_cases hm : (m == "") = true
        · simp [fallbackFailures, hm, normFailures]
        · simp only [fallbackFailures, hm]
          simp [normFailures, MAX_FAILURE_LOG, Bool.not_eq_true] at hm ⊢
  rcases fs with _ | l
  · exact hfb
  · by_cases hl : 0 < l.length
    · have hdl : (l.drop (l.length - MAX_FAILURE_LOG)).length = min l.length MAX_FAILURE_LOG := by
        simp [List.length_drop]
        omega
      have hpos : 0 < (l.drop (l.length - MAX_FAILURE_LOG)).length := by
        rw [hdl]
        simp [MAX_FAILURE_LOG]
        omega
      simp only [normFailures, if_pos hl, if_pos hpos]
      congr 1
      have hle : (l.drop (l.length - MAX_FAILURE_LOG)).length ≤ MAX_FAILURE_LOG := by
        rw [hdl]; omega
      rw [show (l.drop (l.length - MAX_FAILURE_LOG)).length - MAX_FAILURE_LOG = 0 by omega]
      exact List.drop_zero _
    · simp only [normFailures, if_neg hl]
      exact hfb

theorem normItem_normItem (it : PendingItem) : normItem (normItem it) = normItem it := by
  rcases it with ⟨id, kind, payload, c, a, le, la, fs⟩
  simp [normItem, normFailures_normFailures]

/-! ### Store-state invariant for reachable worlds -/

theorem upd_self {α : Type} (f : String → Option α) (k : String) (v : Option α) :
    upd f k v k = v := by
  simp [upd]

theorem upd_other {α : Type} (f : String → Option α) (k : String) (v : Option α)
    (k2 : String) (h : k2 ≠ k) : upd f k v k2 = f k2 := by
  simp [upd, h]

theorem buildKey_ne_legacyKey (u : Option String) : buildKey u ≠ legacyKey u := by
  intro h
  have hl := congrArg String.length h
  simp [buildKey, legacyKey, STORAGE_VERSION, String.length_append] at hl
  exact absurd hl (by decide)

/-- Invariant of a world whose stored queue for owner `u` is exactly the
persisted encoding of `q` (or nothing, with `q` empty), with no active
memory fallback and no legacy residue. -/
structure GoodWorld (u : Option String) (q : List PendingItem) (w : World) : Prop where
  fb : w.fallback (buildKey u) = none
  leg : w.locals (legacyKey u) = none
  stored : w.locals (buildKey u) = some (.val (encodeItems q)) ∨
      (w.locals (buildKey u) = none ∧ q = [])
  len : q.length ≤ MAX_QUEUE_SIZE

theorem goodWorld_empty (u : Option String) : GoodWorld u [] emptyWorld := by
  refine ⟨rfl, rfl, Or.inr ⟨rfl, rfl⟩, by simp [MAX_QUEUE_SIZE]⟩

theorem trimQueue_of_le {l : List PendingItem} (h : l.length ≤ MAX_QUEUE_SIZE) :
    trimQueue l = (l, 0) := by
  simp [trimQueue, h]

theorem trimQueue_fst_length (l : List PendingItem) :
    (trimQueue l).1.length ≤ MAX_QUEUE_SIZE := by
  by_cases h : l.length ≤ MAX_QUEUE_SIZE
  · simp [trimQueue, h]
  · simp only [trimQueue, if_neg h, List.length_drop]
    omega

/-- Reading a good world returns the hydrated stored queue and leaves the
world untouched. -/
theorem read_good {cfg : Config} {u : Option String} {q : List PendingItem}
    {w : World} (hp : cfg.hasLocalStorage = true) (hg : GoodWorld u q w) :
    readPendingOps cfg u w = (w, q.map normItem) := by
  rcases hg.stored with hs | ⟨hs, rfl⟩
  · have hlen2 : ((q.map encodeItem).filterMap (decodeEntry cfg.timeNow)).length ≤
        MAX_QUEUE_SIZE := by
      rw [decodeItems_encodeItems, List.length_map]
      exact hg.len
    simp only [readPendingOps, hg.fb, hp, hs, encodeItems]
    simp only [trimQueue_of_le hlen2]
    simp [decodeItems_encodeItems]
    rw [← List.filterMap_map]
    exact decodeItems_encodeItems _ q
  · simp only [readPendingOps, hg.fb, hp, hs, reviveLegacy, hg.leg]
    simp

/-- Shape of a freshly enqueued item (fresh id, zeroed attempt state). -/
def freshItem (kind payload : JVal) (t : Int) (n : Nat) : PendingItem :=
  ⟨.str ("pending_" ++ toString n), kind, payload, t, 0, none, none, some []⟩

theorem notifyQueueTrim_locals (t : Int) (d : Nat) (w : World) :
    (notifyQueueTrim t d w).locals = w.locals := by
  by_cases h : d = 0 <;> simp [notifyQueueTrim, publishSyncEvent, h]

theorem notifyQueueTrim_fallback (t : Int) (d : Nat) (w : World) :
    (notifyQueueTrim t d w).fallback = w.fallback := by
  by_cases h : d = 0 <;> simp [notifyQueueTrim, publishSyncEvent, h]

theorem notifyQueueTrim_nextId (t : Int) (d : Nat) (w : World) :
    (notifyQueueTrim t d w).nextId = w.nextId := by
  by_cases h : d = 0 <;> simp [notifyQueueTrim, publishSyncEvent, h]

/-- The world after a successful durable write of `items`. -/
def persistOkWorld (cfg : Config) (u : Option String) (items : List PendingItem)
    (w : World) : World :=
  let t := trimQueue items
  let w1 := notifyQueueTrim cfg.timeNow t.2 w
  { w1 with
    locals := upd w1.locals (buildKey u) (some (.val (encodeItems t.1))),
    fallback := upd w1.fallback (buildKey u) none }

/-- Shape of a successful durable write. -/
theorem persist_ok {cfg : Config} (hp : cfg.hasLocalStorage = true)
    (hok : cfg.setOutcome = .ok) (items : List PendingItem) (u : Option String)
    (w : World) :
    persist cfg items u w = (persistOkWorld cfg u items w, .ok true) := by
  simp [persist, hp, hok, persistOkWorld]

theorem persistOkWorld_nextId (cfg : Config) (u : Option String)
    (items : List PendingItem) (w : World) :
    (persistOkWorld cfg u items w).nextId = w.nextId := by
  simp [persistOkWorld, notifyQueueTrim_nextId]

theorem goodWorld_persistOkWorld (cfg : Config) (u : Option String)
    (items : List PendingItem) (w : World) (hleg : w.locals (legacyKey u) = none) :
    GoodWorld u (trimQueue items).1 (persistOkWorld cfg u items w) := by
  constructor
  · exact upd_self _ _ _
  · rw [show (persistOkWorld cfg u items w).locals (legacyKey u) =
        (notifyQueueTrim cfg.timeNow (trimQueue items).2 w).locals (legacyKey u) from
      upd_other _ _ _ _ (Ne.symm (buildKey_ne_legacyKey u))]
    rw [notifyQueueTrim_locals]
    exact hleg
  · exact Or.inl (upd_self _ _ _)
  · exact trimQueue_fst_length _

/-- A successful enqueue of a save appends a fresh item, trims and persists. -/
theorem enqueueSave_eq {cfg : Config} {u : Option String} {q : List PendingItem}
    {w : World} (hp : cfg.hasLocalStorage = true) (hok : cfg.setOutcome = .ok)
    (hg : GoodWorld u q w) (p : JVal) :
    enqueueSaveOperation cfg p u w =
      (persistOkWorld cfg u
          (q.map normItem ++ [freshItem (.str "save") p cfg.timeNow w.nextId])
          { w with nextId := w.nextId + 1 },
        .ok (freshItem (.str "save") p cfg.timeNow w.nextId)) := by
  unfold enqueueSaveOperation
  rw [read_good hp hg]
  simp only [genId, persist_ok hp hok, freshItem]

/-- A successful enqueue of an update filters out queued updates with the
same target id, appends a fresh item, trims and persists. -/
theorem enqueueUpdate_eq {cfg : Config} {u : Option String} {q : List PendingItem}
    {w : World} (hp : cfg.hasLocalStorage = true) (hok : cfg.setOutcome = .ok)
    (hg : GoodWorld u q w) (pid : String) (up : JVal) :
    enqueueUpdateOperation cfg pid up u w =
      (persistOkWorld cfg u
          ((q.map normItem).filter (fun it => !isUpdateFor pid it) ++
            [freshItem (.str "update") (.obj [("id", JVal.str pid), ("update", up)])
              cfg.timeNow w.nextId])
          { w with nextId := w.nextId + 1 },
        .ok (freshItem (.str "update")
          (.obj [("id", JVal.str pid), ("update", up)]) cfg.timeNow w.nextId)) := by
  unfold enqueueUpdateOperation
  rw [read_good hp hg]
  simp only [genId, persist_ok hp hok, freshItem]

/-! ### Repeated save enqueues (eviction scenario) -/

/-- `n` identical save enqueues issued in order. -/
def saveSeq (cfg : Config) (p : JVal) (u : Option String) : Nat → World → World
  | 0, w => w
  | n + 1, w => (enqueueSaveOperation cfg p u (saveSeq cfg p u n w)).1

/-- The `i`-th fresh save item as it reads back after one round trip. -/
def normSave (p : JVal) (t : Int) (i : Nat) : PendingItem :=
  ⟨.str ("pending_" ++ toString i), .str "save", p, t, 0, none, none, none⟩

theorem normItem_freshSave (p : JVal) (t : Int) (i : Nat) :
    normItem (freshItem (.str "save") p t i) = normSave p t i := rfl

theorem normItem_normSave (p : JVal) (t : Int) (i : Nat) :
    normItem (normSave p t i) = normSave p t i := rfl

theorem map_normItem_idem (l : List PendingItem) :
    (l.map normItem).map normItem = l.map normItem := by
  rw [List.map_map]
  have h : normItem ∘ normItem = normItem := funext normItem_normItem
  rw [h]

theorem trimQueue_fst_map (f : PendingItem → PendingItem) (l : List PendingItem) :
    (trimQueue l).1.map f = (trimQueue (l.map f)).1 := by
  by_cases h : l.length ≤ MAX_QUEUE_SIZE
  · simp [trimQueue, h]
  · have h2 : ¬ (l.map f).length ≤ MAX_QUEUE_SIZE := by simpa using h
    simp [trimQueue, h, h2, List.map_drop]

/-- The read-back queue contents after `n` save enqueues into an empty
store: the last `MAX_QUEUE_SIZE` of the `n` fresh items. -/
def saveTarget (p : JVal) (t : Int) (n : Nat) : List PendingItem :=
  ((List.range n).map (normSave p t)).drop (n - MAX_QUEUE_SIZE)

theorem saveTarget_length (p : JVal) (t : Int) (n : Nat) :
    (saveTarget p t n).length = min n MAX_QUEUE_SIZE := by
  simp [saveTarget, List.length_drop]
  omega

theorem saveTarget_step (p : JVal) (t : Int) (n : Nat) :
    (trimQueue (saveTarget p t n ++ [normSave p t n])).1 = saveTarget p t (n + 1) := by
  have hlen := saveTarget_length p t n
  by_cases h : n < MAX_QUEUE_SIZE
  · have hle : (saveTarget p t n ++ [normSave p t n]).length ≤ MAX_QUEUE_SIZE := by
      simp [hlen]
      omega
    rw [trimQueue_of_le hle]
    simp only [saveTarget]
    rw [show n - MAX_QUEUE_SIZE = 0 by omega, show n + 1 - MAX_QUEUE_SIZE = 0 by omega]
    simp [List.range_succ]
  · have hlen1 : (saveTarget p t n).length = MAX_QUEUE_SIZE := by omega
    have hgt : ¬ (saveTarget p t n ++ [normSave p t n]).length ≤ MAX_QUEUE_SIZE := by
      simp [hlen1]
    simp only [trimQueue, if_neg hgt]
    have hd : (saveTarget p t n ++ [normSave p t n]).length - MAX_QUEUE_SIZE = 1 := by
      simp [hlen1]
    rw [hd, List.drop_append_of_le_length (by rw [hlen1]; exact by simp [MAX_QUEUE_SIZE])]
    simp only [saveTarget]
    rw [List.drop_drop]
    rw [show n - MAX_QUEUE_SIZE + 1 = n + 1 - MAX_QUEUE_SIZE by omega]
    rw [List.range_succ, List.map_append,
      List.drop_append_of_le_length (by simp [MAX_QUEUE_SIZE])]
    rfl

/-- Invariant of the repeated-save scenario: after `n` enqueues the store
holds a good queue reading back as `saveTarget n`, and `n` ids were used. -/
theorem saveSeq_inv {cfg : Config} {u : Option String}
    (hp : cfg.hasLocalStorage = true) (hok : cfg.setOutcome = .ok) (p : JVal) :
    ∀ n, ∃ q, GoodWorld u q (saveSeq cfg p u n emptyWorld) ∧
      (saveSeq cfg p u n emptyWorld).nextId = n ∧
      q.map normItem = saveTarget p cfg.timeNow n := by
  intro n
  induction n with
  | zero =>
      exact ⟨[], goodWorld_empty u, rfl, by simp [saveTarget]⟩
  | succ k ih =>
      obtain ⟨q, hg, hnid, htgt⟩ := ih
      have hstep : saveSeq cfg p u (k + 1) emptyWorld =
          (enqueueSaveOperation cfg p u (saveSeq cfg p u k emptyWorld)).1 := rfl
      rw [hstep, enqueueSave_eq hp hok hg p]
      refine ⟨_, goodWorld_persistOkWorld cfg u _ _ hg.leg, ?_, ?_⟩
      · rw [persistOkWorld_nextId]
        simp [hnid]
      · rw [trimQueue_fst_map]
        rw [List.map_append, map_normItem_idem, htgt, hnid]
        rw [show [freshItem (JVal.str "save") p cfg.timeNow k].map normItem =
          [normSave p cfg.timeNow k] from rfl]
        exact saveTarget_step p cfg.timeNow k

/-- C3: enqueueing 101 `Save` items into an empty queue (cap 100) yields a
final queue of length exactly 100; its first (oldest) element is the item
returned by the 2nd enqueue call (as it reads back after its storage round
trip), and the 1st enqueued item is absent from the queue. -/
theorem claim_C3_eviction (cfg : Config) (p : JVal) (u : Option String)
    (hp : cfg.hasLocalStorage = true) (hok : cfg.setOutcome = .ok) :
    (enqueueSaveOperation cfg p u (saveSeq cfg p u 1 emptyWorld)).2 =
        .ok (freshItem (.str "save") p cfg.timeNow 1) ∧
    (readPendingOps cfg u (saveSeq cfg p u 101 emptyWorld)).2.length = 100 ∧
    (readPendingOps cfg u (saveSeq cfg p u 101 emptyWorld)).2.head? =
        some (normItem (freshItem (.str "save") p cfg.timeNow 1)) ∧
    ∀ it ∈ (readPendingOps cfg u (saveSeq cfg p u 101 emptyWorld)).2,
      it.id ≠ (freshItem (.str "save") p cfg.timeNow 0).id := by
  obtain ⟨q1, hg1, hn1, ht1⟩ := saveSeq_inv (u := u) hp hok p 1
  obtain ⟨q, hg, hn, ht⟩ := saveSeq_inv (u := u) hp hok p 101
  have hread := read_good hp hg
  refine ⟨?_, ?_, ?_, ?_⟩
  · rw [enqueueSave_eq hp hok hg1 p, hn1]
  · rw [hread]
    show (q.map normItem).length = 100
    rw [ht, saveTarget_length]
    rfl
  · rw [hread]
    show (q.map normItem).head? = _
    rw [ht, normItem_freshSave]
    show (((List.range 101).map (normSave p cfg.timeNow)).drop 1).head? = _
    rw [List.head?_drop, List.getElem?_map, List.getElem?_range (by omega)]
    rfl
  · intro it hit
    rw [hread] at hit
    replace hit : it ∈ q.map normItem := hit
    rw [ht] at hit
    replace hit : it ∈ ((List.range 101).map (normSave p cfg.timeNow)).drop 1 := hit
    rw [← List.map_drop] at hit
    obtain ⟨i, hi, rfl⟩ := List.mem_map.1 hit
    have hids : ∀ j ∈ (List.range 101).drop 1,
        ("pending_" ++ toString j : String) ≠ "pending_0" := by decide
    intro he
    have hs : ("pending_" ++ toString i : String) = "pending_0" := by
      simpa [normSave, freshItem] using he
    exact hids i hi hs

/-! ### Update de-duplication: sequence invariant and replacement -/

/-- At most one queued update per target entity id. -/
def UpdOk (q : List PendingItem) : Prop :=
  ∀ pid, (q.filter (isUpdateFor pid)).length ≤ 1

theorem isUpdateFor_normItem (pid : String) (it : PendingItem) :
    isUpdateFor pid (normItem it) = isUpdateFor pid it := rfl

theorem isUpdateFor_freshSave (pid : String) (p : JVal) (t : Int) (n : Nat) :
    isUpdateFor pid (freshItem (.str "save") p t n) = false := rfl

theorem isUpdateFor_freshUpdate (pid pid0 : String) (up : JVal) (t : Int) (n : Nat) :
    isUpdateFor pid (freshItem (.str "update")
      (.obj [("id", JVal.str pid0), ("update", up)]) t n) = (pid0 == pid) := by
  simp [isUpdateFor, freshItem, JVal.getField]

theorem trimQueue_fst_sublist (l : List PendingItem) : (trimQueue l).1.Sublist l := by
  by_cases h : l.length ≤ MAX_QUEUE_SIZE
  · simp [trimQueue, h]
  · simp only [trimQueue, if_neg h]
    exact List.drop_sublist _ l

theorem updOk_sublist {l1 l2 : List PendingItem} (h : l1.Sublist l2)
    (hu : UpdOk l2) : UpdOk l1 := by
  intro pid
  exact le_trans ((h.filter (isUpdateFor pid)).length_le) (hu pid)

theorem updOk_map_normItem {l : List PendingItem} (hu : UpdOk l) :
    UpdOk (l.map normItem) := by
  intro pid
  rw [List.filter_map, List.length_map]
  have h : (isUpdateFor pid ∘ normItem) = isUpdateFor pid :=
    funext (isUpdateFor_normItem pid)
  rw [h]
  exact hu pid

theorem updOk_append_save {l : List PendingItem} (hu : UpdOk l) (p : JVal)
    (t : Int) (n : Nat) : UpdOk (l ++ [freshItem (.str "save") p t n]) := by
  intro pid
  rw [List.filter_append]
  simp [List.filter, isUpdateFor_freshSave]
  exact hu pid

theorem updOk_filtered_append_update {l : List PendingItem} (pid0 : String)
    (hu : UpdOk l) (up : JVal) (t : Int) (n : Nat) :
    UpdOk ((l.filter (fun it => !isUpdateFor pid0 it)) ++
      [freshItem (.str "update") (.obj [("id", JVal.str pid0), ("update", up)]) t n]) := by
  intro pid
  rw [List.filter_append, List.length_append]
  have hsingle : ([freshItem (.str "update")
      (.obj [("id", JVal.str pid0), ("update", up)]) t n].filter
        (isUpdateFor pid)).length ≤ 1 := by
    simp [List.filter]
    by_cases h : isUpdateFor pid (freshItem (.str "update")
        (.obj [("id", JVal.str pid0), ("update", up)]) t n) <;> simp [h]
  by_cases h : pid0 = pid
  · subst h
    have hnil : (l.filter (fun it => !isUpdateFor pid0 it)).filter
        (isUpdateFor pid0) = [] := by
      rw [List.filter_eq_nil_iff]
      intro a ha hcontra
      have := List.of_mem_filter ha
      simp [hcontra] at this
    rw [hnil]
    simpa using hsingle
  · have hsub : ((l.filter (fun it => !isUpdateFor pid0 it)).filter
        (isUpdateFor pid)).length ≤ 1 :=
      updOk_sublist (List.filter_sublist l) hu pid
    have hbf : (pid0 == pid) = false := beq_eq_false_iff_ne.2 h
    have hz : ([freshItem (.str "update")
        (.obj [("id", JVal.str pid0), ("update", up)]) t n].filter
          (isUpdateFor pid)).length = 0 := by
      simp [List.filter, isUpdateFor_freshUpdate, hbf]
    omega

/-- One producer call (the enqueue operations of the store). -/
inductive EnqOp where
  | save : JVal → EnqOp
  | update : String → JVal → EnqOp

def applyEnq (cfg : Config) (u : Option String) (w : World) : EnqOp → World
  | .save p => (enqueueSaveOperation cfg p u w).1
  | .update pid up => (enqueueUpdateOperation cfg pid up u w).1

def runEnqs (cfg : Config) (u : Option String) : List EnqOp → World → World
  | [], w => w
  | op :: ops, w => runEnqs cfg u ops (applyEnq cfg u w op)

/-- Any interleaving of enqueue calls preserves the store invariant and the
at-most-one-update-per-id property. -/
theorem runEnqs_inv {cfg : Config} {u : Option String}
    (hp : cfg.hasLocalStorage = true) (hok : cfg.setOutcome = .ok) :
    ∀ (ops : List EnqOp) (w : World) (q : List PendingItem),
      GoodWorld u q w → UpdOk q →
      ∃ q2, GoodWorld u q2 (runEnqs cfg u ops w) ∧ UpdOk q2 := by
  intro ops
  induction ops with
  | nil => exact fun w q hg hu => ⟨q, hg, hu⟩
  | cons op ops ih =>
    intro w q hg hu
    cases op with
    | save p =>
        have hstep : applyEnq cfg u w (.save p) =
            (enqueueSaveOperation cfg p u w).1 := rfl
        have happ := enqueueSave_eq hp hok hg p
        have hg2 : GoodWorld u
            (trimQueue (q.map normItem ++
              [freshItem (.str "save") p cfg.timeNow w.nextId])).1
            (applyEnq cfg u w (.save p)) := by
          rw [hstep, happ]
          exact goodWorld_persistOkWorld cfg u _ _ hg.leg
        have hu2 : UpdOk (trimQueue (q.map normItem ++
            [freshItem (.str "save") p cfg.timeNow w.nextId])).1 :=
          updOk_sublist (trimQueue_fst_sublist _)
            (updOk_append_save (updOk_map_normItem hu) p cfg.timeNow w.nextId)
        exact ih _ _ hg2 hu2
    | update pid up =>
        have hstep : applyEnq cfg u w (.update pid up) =
            (enqueueUpdateOperation cfg pid up u w).1 := rfl
        have happ := enqueueUpdate_eq hp hok hg pid up
        have hg2 : GoodWorld u
            (trimQueue ((q.map normItem).filter (fun it => !isUpdateFor pid it) ++
              [freshItem (.str "update")
                (.obj [("id", JVal.str pid), ("update", up)]) cfg.timeNow w.nextId])).1
            (applyEnq cfg u w (.update pid up)) := by
          rw [hstep, happ]
          exact goodWorld_persistOkWorld cfg u _ _ hg.leg
        have hu2 : UpdOk (trimQueue ((q.map normItem).filter
            (fun it => !isUpdateFor pid it) ++
            [freshItem (.str "update")
              (.obj [("id", JVal.str pid), ("update", up)]) cfg.timeNow w.nextId])).1 :=
          updOk_sublist (trimQueue_fst_sublist _)
            (updOk_filtered_append_update pid (updOk_map_normItem hu) up
              cfg.timeNow w.nextId)
        exact ih _ _ hg2 hu2

theorem map_normItem_eq_self {l : List PendingItem} (h : ∀ x ∈ l, normItem x = x) :
    l.map normItem = l := by
  rw [List.map_congr_left h]
  simp

theorem norm_stable_of_mem_map {x : PendingItem} {l : List PendingItem}
    (h : x ∈ l.map normItem) : normItem x = x := by
  obtain ⟨y, _, rfl⟩ := List.mem_map.1 h
  exact normItem_normItem y

/-- Replacement on back-to-back updates: after enqueueing two updates for
the same target id in a row, the queue is the previous queue with its last
item (the first update) replaced in place at the same (last) position by
the second update, which carries the second payload; exactly one queued
item targets that id. -/
theorem updateTwice {cfg : Config} {u : Option String} {q : List PendingItem}
    {w : World} (hp : cfg.hasLocalStorage = true) (hok : cfg.setOutcome = .ok)
    (hg : GoodWorld u q w) (pid : String) (p1 p2 : JVal) :
    ∃ op2 : PendingItem,
      (enqueueUpdateOperation cfg pid p2 u
          (enqueueUpdateOperation cfg pid p1 u w).1).2 = .ok op2 ∧
      op2.payload.getField "update" = some p2 ∧
      isUpdateFor pid op2 = true ∧
      (readPendingOps cfg u (enqueueUpdateOperation cfg pid p2 u
          (enqueueUpdateOperation cfg pid p1 u w).1).1).2 =
        (readPendingOps cfg u
          (enqueueUpdateOperation cfg pid p1 u w).1).2.dropLast ++ [normItem op2] ∧
      ((readPendingOps cfg u (enqueueUpdateOperation cfg pid p2 u
          (enqueueUpdateOperation cfg pid p1 u w).1).1).2.filter
            (isUpdateFor pid)).length = 1 := by
  have hM : MAX_QUEUE_SIZE = 100 := rfl
  set base := (q.map normItem).filter (fun it => !isUpdateFor pid it) with hbase
  set op1 := freshItem (.str "update")
    (.obj [("id", JVal.str pid), ("update", p1)]) cfg.timeNow w.nextId with hop1
  have h1 := enqueueUpdate_eq hp hok hg pid p1
  have hg1 : GoodWorld u (trimQueue (base ++ [op1])).1
      ((enqueueUpdateOperation cfg pid p1 u w).1) := by
    rw [h1]
    exact goodWorld_persistOkWorld cfg u _ _ hg.leg
  have hbl : base.length ≤ MAX_QUEUE_SIZE := by
    have h1l := (List.filter_sublist (l := q.map normItem)
      (p := fun it => !isUpdateFor pid it)).length_le
    rw [List.length_map] at h1l
    exact le_trans h1l hg.len
  set d := (base.length + 1) - MAX_QUEUE_SIZE with hd
  have hdle : d ≤ base.length := by omega
  have hs1 : (trimQueue (base ++ [op1])).1 = base.drop d ++ [op1] := by
    by_cases hc : (base ++ [op1]).length ≤ MAX_QUEUE_SIZE
    · rw [trimQueue_of_le hc]
      have hd0 : d = 0 := by
        simp at hc
        omega
      rw [hd0, List.drop_zero]
    · simp only [trimQueue, if_neg hc]
      have hdd : (base ++ [op1]).length - MAX_QUEUE_SIZE = d := by
        simp
      rw [hdd, List.drop_append_of_le_length hdle]
  have hnorm1 : isUpdateFor pid (normItem op1) = true := by
    rw [isUpdateFor_normItem, hop1, isUpdateFor_freshUpdate]
    simp
  have hbase_stable : ∀ x ∈ base.drop d, normItem x = x := by
    intro x hx
    have hxb : x ∈ base := (List.drop_sublist d base).mem hx
    exact norm_stable_of_mem_map (List.mem_filter.1 hxb).1
  have hbase_notupd : ∀ x ∈ base.drop d, isUpdateFor pid x = false := by
    intro x hx
    have hxb : x ∈ base := (List.drop_sublist d base).mem hx
    have := List.of_mem_filter hxb
    simpa using this
  have hmap1 : (trimQueue (base ++ [op1])).1.map normItem =
      base.drop d ++ [normItem op1] := by
    rw [hs1, List.map_append, map_normItem_eq_self hbase_stable]
    rfl
  have hq1 : (readPendingOps cfg u ((enqueueUpdateOperation cfg pid p1 u w).1)).2 =
      base.drop d ++ [normItem op1] := by
    rw [read_good hp hg1]
    exact hmap1
  have h2 := enqueueUpdate_eq hp hok hg1 pid p2
  refine ⟨freshItem (.str "update")
    (.obj [("id", JVal.str pid), ("update", p2)]) cfg.timeNow
    ((enqueueUpdateOperation cfg pid p1 u w).1).nextId, ?_, ?_, ?_, ?_, ?_⟩
  · rw [h2]
  · rfl
  · rw [isUpdateFor_freshUpdate]
    simp
  all_goals {
    have hfilter : ((trimQueue (base ++ [op1])).1.map normItem).filter
        (fun it => !isUpdateFor pid it) = base.drop d := by
      rw [hmap1, List.filter_append]
      have hb : (base.drop d).filter (fun it => !isUpdateFor pid it) =
          base.drop d := by
        rw [List.filter_eq_self]
        intro a ha
        simp [hbase_notupd a ha]
      have ho : [normItem op1].filter (fun it => !isUpdateFor pid it) = [] := by
        simp [List.filter, hnorm1]
      rw [hb, ho, List.append_nil]
    set op2 := freshItem (.str "update")
      (.obj [("id", JVal.str pid), ("update", p2)]) cfg.timeNow
      ((enqueueUpdateOperation cfg pid p1 u w).1).nextId with hop2
    have hlen2 : (base.drop d ++ [op2]).length ≤ MAX_QUEUE_SIZE := by
      simp [List.length_drop]
      omega
    have hg2 : GoodWorld u (trimQueue ((((trimQueue (base ++ [op1])).1.map
        normItem).filter (fun it => !isUpdateFor pid it)) ++ [op2])).1
        ((enqueueUpdateOperation cfg pid p2 u
          (enqueueUpdateOperation cfg pid p1 u w).1).1) := by
      rw [h2]
      exact goodWorld_persistOkWorld cfg u _ _ hg1.leg
    rw [hfilter] at hg2
    rw [trimQueue_of_le hlen2] at hg2
    have hnorm2 : isUpdateFor pid (normItem op2) = true := by
      rw [isUpdateFor_normItem, hop2, isUpdateFor_freshUpdate]
      simp
    have hq2 : (readPendingOps cfg u ((enqueueUpdateOperation cfg pid p2 u
        (enqueueUpdateOperation cfg pid p1 u w).1).1)).2 =
        base.drop d ++ [normItem op2] := by
      rw [read_good hp hg2, List.map_append, map_normItem_eq_self hbase_stable]
      rfl
    first
    | -- structural conjunct
      (rw [hq2, hq1, List.dropLast_concat])
    | -- counting conjunct
      (rw [hq2, List.filter_append]
       have hnil : (base.drop d).filter (isUpdateFor pid) = [] := by
         rw [List.filter_eq_nil_iff]
         intro a ha
         simp [hbase_notupd a ha]
       rw [hnil]
       simp [List.filter, hnorm2])
  }

/-! ### Replay engine lemmas -/

theorem persist_absent {cfg : Config} (hp : cfg.hasLocalStorage = false)
    (items : List PendingItem) (u : Option String) (w : World) :
    persist cfg items u w = (w, .ok false) := by
  simp [persist, hp]

theorem persist_quota {cfg : Config} {e : JsError} (hp : cfg.hasLocalStorage = true)
    (he : cfg.setOutcome = .err e) (hf : isStorageFullError e = true)
    (items : List PendingItem) (u : Option String) (w : World) :
    persist cfg items u w =
      (publishSyncEvent
        { notifyQueueTrim cfg.timeNow (trimQueue items).2 w with
          fallback := upd (notifyQueueTrim cfg.timeNow (trimQueue items).2 w).fallback
            (buildKey u) (some (trimQueue items).1) }
        (quotaEvent cfg.timeNow), .ok false) := by
  simp [persist, hp, he, hf]

theorem persist_err {cfg : Config} {e : JsError} (hp : cfg.hasLocalStorage = true)
    (he : cfg.setOutcome = .err e) (hf : isStorageFullError e = false)
    (items : List PendingItem) (u : Option String) (w : World) :
    persist cfg items u w =
      (notifyQueueTrim cfg.timeNow (trimQueue items).2 w,
        .error ⟨persistErrMessage, e⟩) := by
  simp [persist, hp, he, hf]

/-- Configurations under which a durable write never throws. -/
def persistSafe (cfg : Config) : Prop :=
  cfg.hasLocalStorage = false ∨ cfg.setOutcome = .ok ∨
    ∃ e, cfg.setOutcome = .err e ∧ isStorageFullError e = true

theorem persist_safe {cfg : Config} (h : persistSafe cfg)
    (items : List PendingItem) (u : Option String) (w : World) :
    ∃ w1 b, persist cfg items u w = (w1, .ok b) := by
  by_cases hp : cfg.hasLocalStorage = false
  · exact ⟨w, false, persist_absent hp items u w⟩
  · have hp2 : cfg.hasLocalStorage = true := by simpa using hp
    rcases h with h | h | ⟨e, he, hf⟩
    · exact absurd h (by simp [hp2])
    · exact ⟨_, true, persist_ok hp2 h items u w⟩
    · exact ⟨_, false, persist_quota hp2 he hf items u w⟩

theorem handleFailure_term_eq {cfg : Config} {m : Int} {item : PendingItem}
    {w w2 : World} {b2 : Bool} (bms : Int) (df : Int → Int → Int)
    (u : Option String) (ab : Bool) (q : List PendingItem) (msg : String)
    (rid : Option String) (log : RunLog) (hterm : m ≤ item.attempts + 1)
    (hper : persist cfg (jsDropHead q) u (publishSyncEvent w
      (failEvent item (item.attempts + 1) m msg rid cfg.timeNow)) = (w2, .ok b2)) :
    handleFailure cfg m bms df u ab item q msg rid w log =
      .cont (jsDropHead q) w2
        { log with
          backoffCalls := log.backoffCalls ++ [item.attempts],
          itemFailures := log.itemFailures ++
            [(failedItem item msg rid cfg.timeNow, item.attempts + 1, none)],
          permanentFailures := log.permanentFailures ++
            [(failedItem item msg rid cfg.timeNow, msg)] } := by
  simp only [handleFailure, if_pos hterm, hper, Int.add_sub_cancel]

theorem handleFailure_retry_eq {cfg : Config} {m : Int} {item : PendingItem}
    {w w2 : World} {b2 : Bool} (bms : Int) (df : Int → Int → Int)
    (u : Option String) (q : List PendingItem) (msg : String)
    (rid : Option String) (log : RunLog) (hterm : ¬ m ≤ item.attempts + 1)
    (hper : persist cfg (jsSetHead q (failedItem item msg rid cfg.timeNow)) u
      (publishSyncEvent w
        (failEvent item (item.attempts + 1) m msg rid cfg.timeNow)) =
      (w2, .ok b2)) :
    handleFailure cfg m bms df u false item q msg rid w log =
      .cont (jsSetHead q (failedItem item msg rid cfg.timeNow)) w2
        { log with
          backoffCalls := log.backoffCalls ++ [item.attempts],
          itemFailures := log.itemFailures ++
            [(failedItem item msg rid cfg.timeNow, item.attempts + 1,
              some (df bms item.attempts))],
          retryWaits := log.retryWaits ++
            [(item.attempts, df bms item.attempts)] } := by
  simp only [handleFailure, if_neg hterm, hper, Int.add_sub_cancel]
  simp

theorem handleFailure_brk_eq {cfg : Config} {m : Int} {item : PendingItem}
    {w w2 : World} {b2 : Bool} (bms : Int) (df : Int → Int → Int)
    (u : Option String) (q : List PendingItem) (msg : String)
    (rid : Option String) (log : RunLog) (hterm : ¬ m ≤ item.attempts + 1)
    (hper : persist cfg (jsSetHead q (failedItem item msg rid cfg.timeNow)) u
      (publishSyncEvent w
        (failEvent item (item.attempts + 1) m msg rid cfg.timeNow)) =
      (w2, .ok b2)) :
    handleFailure cfg m bms df u true item q msg rid w log =
      .brk (jsSetHead q (failedItem item msg rid cfg.timeNow)) w2
        { log with
          backoffCalls := log.backoffCalls ++ [item.attempts],
          itemFailures := log.itemFailures ++
            [(failedItem item msg rid cfg.timeNow, item.attempts + 1,
              some (df bms item.attempts))] } := by
  simp only [handleFailure, if_neg hterm, hper, Int.add_sub_cancel]
  simp

theorem weight_pos (m : Int) (it : PendingItem) : 1 ≤ weight m it := by
  simp [weight]

theorem queueFuel_cons (m : Int) (it : PendingItem) (rest : List PendingItem) :
    queueFuel m (it :: rest) = weight m it + queueFuel m rest := by
  simp [queueFuel]

/-- With a persistence layer that never throws, the replay loop always
terminates normally: no exception escapes and the fuel bound is sufficient. -/
theorem processGo_ok {cfg : Config} (hs : persistSafe cfg) (m bms : Int)
    (df : Int → Int → Int) (ex : PendingItem → Except ExecError Unit)
    (u : Option String) (ab : Bool) :
    ∀ (fuel : Nat) (q : List PendingItem) (w : World) (log : RunLog),
      queueFuel m q ≤ fuel →
      ∃ q2 w2 log2, processGo cfg m bms df ex u ab fuel q w log = .ok q2 w2 log2 := by
  intro fuel
  induction fuel with
  | zero =>
    intro q w log hf
    cases q with
    | nil => exact ⟨[], w, log, rfl⟩
    | cons it rest =>
      exfalso
      have h1 := weight_pos m it
      rw [queueFuel_cons] at hf
      omega
  | succ f ih =>
    intro q w log hf
    cases q with
    | nil => exact ⟨[], w, log, rfl⟩
    | cons it rest =>
      rw [queueFuel_cons] at hf
      have hw := weight_pos m it
      by_cases hab : ab = true
      · exact ⟨it :: rest, w, log, by simp [processGo, hab]⟩
      · have hab2 : ab = false := by simpa using hab
        subst hab2
        cases hex : ex it with
        | ok r =>
          obtain ⟨w1, b1, hper⟩ := persist_safe hs rest u w
          have hfr : queueFuel m rest ≤ f := by omega
          obtain ⟨q2, w2, log2, hrec⟩ :=
            ih rest w1 { log with successes := log.successes ++ [it] } hfr
          refine ⟨q2, w2, log2, ?_⟩
          simp only [processGo, Bool.false_eq_true, if_false, hex, hper]
          exact hrec
        | error err =>
          by_cases hterm : m ≤ it.attempts + 1
          · obtain ⟨w2x, b2x, hper⟩ := persist_safe hs (jsDropHead (it :: rest)) u
              (publishSyncEvent w (failEvent it (it.attempts + 1) m err.message
                err.requestId cfg.timeNow))
            have heq := handleFailure_term_eq bms df u false (it :: rest)
              err.message err.requestId log hterm hper
            have hfr : queueFuel m (jsDropHead (it :: rest)) ≤ f := by
              simp only [jsDropHead, List.tail_cons]
              omega
            obtain ⟨q2, w2, log2, hrec⟩ := ih (jsDropHead (it :: rest)) w2x _ hfr
            refine ⟨q2, w2, log2, ?_⟩
            simp only [processGo, Bool.false_eq_true, if_false, hex, heq]
            exact hrec
          · obtain ⟨w2x, b2x, hper⟩ := persist_safe hs
              (jsSetHead (it :: rest) (failedItem it err.message err.requestId
                cfg.timeNow)) u
              (publishSyncEvent w (failEvent it (it.attempts + 1) m err.message
                err.requestId cfg.timeNow))
            have heq := handleFailure_retry_eq bms df u (it :: rest)
              err.message err.requestId log hterm hper
            have hfr : queueFuel m (jsSetHead (it :: rest)
                (failedItem it err.message err.requestId cfg.timeNow)) ≤ f := by
              simp only [jsSetHead, queueFuel_cons]
              have : weight m (failedItem it err.message err.requestId cfg.timeNow) =
                  weight m it - 1 := by
                simp only [weight, failedItem]
                omega
              omega
            obtain ⟨q2, w2, log2, hrec⟩ := ih _ w2x _ hfr
            refine ⟨q2, w2, log2, ?_⟩
            simp only [processGo, Bool.false_eq_true, if_false, hex, heq]
            exact hrec

theorem cappedAppend_length (fs : List PendingFailure) (f : PendingFailure) :
    (cappedAppend fs f).length = min (fs.length + 1) MAX_FAILURE_LOG := by
  simp [cappedAppend, List.length_drop, MAX_FAILURE_LOG]
  omega

theorem cons_map_range_shift {α : Type} (f : Int → α) (a : Int) (n : Nat) :
    f a :: (List.range n).map (fun j => f ((a + 1) + Int.ofNat j)) =
      (List.range (n + 1)).map (fun j => f (a + Int.ofNat j)) := by
  rw [List.range_succ_eq_map, List.map_cons, List.map_map]
  congr 1
  · exact congrArg f (by simp)
  · apply List.map_congr_left
    intro j _
    simp only [Function.comp_apply]
    exact congrArg f (by simp only [Int.ofNat_succ, Int.ofNat_eq_coe]; ring)

/-- Trace of the replay loop on a single-item queue whose `execute` always
rejects with `e` (no cancellation, persistence succeeding): the item fails
`k + 1` times in total — `k` retryable failures whose backoff delays are
computed with consecutive zero-based attempt indices starting at the item's
current `attempts` count, then one terminal failure reported exactly once
via `onPermanentFailure` with the accumulated (capped) failure log. -/
theorem processGo_single_reject {cfg : Config} (hp : cfg.hasLocalStorage = true)
    (hok : cfg.setOutcome = .ok) (m bms : Int) (df : Int → Int → Int)
    (u : Option String) (e : ExecError)
    (ex : PendingItem → Except ExecError Unit) (hex : ∀ x, ex x = .error e) :
    ∀ (k : Nat) (it : PendingItem) (w : World) (log : RunLog) (fuel : Nat),
      (m - it.attempts - 1).toNat = k → queueFuel m [it] ≤ fuel →
      ∃ w2 log2, processGo cfg m bms df ex u false fuel [it] w log = .ok [] w2 log2 ∧
        log2.backoffCalls = log.backoffCalls ++
          (List.range (k + 1)).map (fun j => it.attempts + Int.ofNat j) ∧
        log2.retryWaits = log.retryWaits ++
          (List.range k).map (fun j =>
            (it.attempts + Int.ofNat j, df bms (it.attempts + Int.ofNat j))) ∧
        log2.successes = log.successes ∧
        ∃ fin : PendingItem × String,
          log2.permanentFailures = log.permanentFailures ++ [fin] ∧
          fin.2 = e.message ∧
          fin.1.attempts = it.attempts + (Int.ofNat k + 1) ∧
          (fin.1.failures.getD []).length =
            min ((it.failures.getD []).length + (k + 1)) MAX_FAILURE_LOG := by
  intro k
  induction k with
  | zero =>
    intro it w log fuel hk hf
    have hterm : m ≤ it.attempts + 1 := by omega
    have hw : 1 ≤ queueFuel m [it] := by
      rw [show ([it] : List PendingItem) = it :: [] from rfl, queueFuel_cons]
      have := weight_pos m it
      omega
    obtain ⟨f, rfl⟩ : ∃ f, fuel = f + 1 := ⟨fuel - 1, by omega⟩
    have hper := persist_ok hp hok (jsDropHead [it]) u
      (publishSyncEvent w (failEvent it (it.attempts + 1) m e.message
        e.requestId cfg.timeNow))
    have heq := handleFailure_term_eq bms df u false [it]
      e.message e.requestId log hterm hper
    refine ⟨persistOkWorld cfg u (jsDropHead [it])
        (publishSyncEvent w (failEvent it (it.attempts + 1) m e.message
          e.requestId cfg.timeNow)),
      { log with
        backoffCalls := log.backoffCalls ++ [it.attempts],
        itemFailures := log.itemFailures ++
          [(failedItem it e.message e.requestId cfg.timeNow, it.attempts + 1, none)],
        permanentFailures := log.permanentFailures ++
          [(failedItem it e.message e.requestId cfg.timeNow, e.message)] },
      ?_, ?_, ?_, rfl, ?_⟩
    · simp only [processGo, Bool.false_eq_true, if_false, hex it, heq,
        jsDropHead, List.tail_cons]
    · simp [List.range_succ]
    · simp
    · refine ⟨(failedItem it e.message e.requestId cfg.timeNow, e.message),
        rfl, rfl, ?_, ?_⟩
      · simp [failedItem]
      · simp [failedItem, cappedAppend_length]
  | succ k ih =>
    intro it w log fuel hk hf
    have hterm : ¬ m ≤ it.attempts + 1 := by omega
    have hw : queueFuel m [it] = 1 + (m - it.attempts).toNat := by
      rw [show ([it] : List PendingItem) = it :: [] from rfl, queueFuel_cons]
      simp [queueFuel, weight]
    obtain ⟨f, rfl⟩ : ∃ f, fuel = f + 1 := ⟨fuel - 1, by omega⟩
    have hper := persist_ok hp hok
      (jsSetHead [it] (failedItem it e.message e.requestId cfg.timeNow)) u
      (publishSyncEvent w (failEvent it (it.attempts + 1) m e.message
        e.requestId cfg.timeNow))
    have heq := handleFailure_retry_eq bms df u [it]
      e.message e.requestId log hterm hper
    set it2 := failedItem it e.message e.requestId cfg.timeNow with hit2
    have hat2 : it2.attempts = it.attempts + 1 := by
      simp [hit2, failedItem]
    have hk2 : (m - it2.attempts - 1).toNat = k := by
      rw [hat2]
      omega
    have hfl2 : (it2.failures.getD []).length =
        min ((it.failures.getD []).length + 1) MAX_FAILURE_LOG := by
      simp [hit2, failedItem, cappedAppend_length]
    have hf2 : queueFuel m [it2] ≤ f := by
      have hw2 : queueFuel m [it2] = 1 + (m - it2.attempts).toNat := by
        rw [show ([it2] : List PendingItem) = it2 :: [] from rfl, queueFuel_cons]
        simp [queueFuel, weight]
      rw [hw2, hat2]
      rw [hw] at hf
      omega
    obtain ⟨w2, log2, hrec, hbc, hrw, hsc, fin, hpf, hm, hat, hfl⟩ :=
      ih it2
        (persistOkWorld cfg u (jsSetHead [it] it2)
          (publishSyncEvent w (failEvent it (it.attempts + 1) m e.message
            e.requestId cfg.timeNow)))
        { log with
          backoffCalls := log.backoffCalls ++ [it.attempts],
          itemFailures := log.itemFailures ++
            [(it2, it.attempts + 1, some (df bms it.attempts))],
          retryWaits := log.retryWaits ++ [(it.attempts, df bms it.attempts)] }
        f hk2 hf2
    refine ⟨w2, log2, ?_, ?_, ?_, by simpa using hsc, ?_⟩
    · simp only [processGo, Bool.false_eq_true, if_false, hex it, heq]
      exact hrec
    · rw [hbc]
      show log.backoffCalls ++ [it.attempts] ++ _ = _
      rw [List.append_assoc, List.singleton_append]
      congr 1
      simp only [hat2]
      exact cons_map_range_shift (fun x => x) it.attempts (k + 1)
    · rw [hrw]
      show log.retryWaits ++ [(it.attempts, df bms it.attempts)] ++ _ = _
      rw [List.append_assoc, List.singleton_append]
      congr 1
      simp only [hat2]
      exact cons_map_range_shift (fun x => (x, df bms x)) it.attempts k
    · refine ⟨fin, by simpa using hpf, hm, ?_, ?_⟩
      · rw [hat, hat2]
        simp only [Int.ofNat_succ, Int.ofNat_eq_coe]
        ring
      · rw [hfl, hfl2]
        have h5 : MAX_FAILURE_LOG = 5 := rfl
        omega


/-! ### Legacy migration -/

/-- A legacy entry the conversion maps to a queue item without throwing:
an object tagged `save` or `update` whose `payload` property exists and is
not `null` (a missing or `null` payload makes the conversion throw into
the surrounding catch). -/
def convertible (p : JVal) : Bool :=
  !jsFalsy p && jsTypeofObject p &&
  (p.getField "kind" == some (JVal.str "save") ||
    p.getField "kind" == some (JVal.str "update")) &&
  (match p.getField "payload" with
   | none => false
   | some .null => false
   | some _ => true)

theorem jsHasField_of_getField {j : JVal} {k : String} {v : JVal}
    (h : j.getField k = some v) : jsHasField j k = true := by
  cases j <;> simp_all [JVal.getField, jsHasField]

theorem legacyEntryKept_of_convertible {p : JVal} (h : convertible p = true) :
    legacyEntryKept p = true := by
  simp only [convertible, Bool.and_eq_true, Bool.or_eq_true] at h
  obtain ⟨⟨⟨h1, h2⟩, h3⟩, _⟩ := h
  have hk : jsHasField p "kind" = true := by
    rcases h3 with h3 | h3 <;>
      exact jsHasField_of_getField (by simpa using h3)
  simp [legacyEntryKept, h1, h2, hk]

theorem migrateEntry_convertible {u : Option String} {t : Int} {p : JVal}
    (w : World) (hc : convertible p = true) :
    ∃ it, migrateEntry u t p w = .ok (some it, { w with nextId := w.nextId + 1 }) ∧
      it.failures = none ∧ it.lastError = none := by
  simp only [convertible, Bool.and_eq_true, Bool.or_eq_true] at hc
  obtain ⟨⟨_, h3⟩, h4⟩ := hc
  rcases hpay : p.getField "payload" with _ | v
  · rw [hpay] at h4
    simp at h4
  · rw [hpay] at h4
    have hvn : v ≠ .null := by
      intro hv
      rw [hv] at h4
      simp at h4
    have hpt : payloadOrThrow (some v) = .ok v := by
      cases v <;> simp [payloadOrThrow]
      exact absurd rfl hvn
    rcases h3 with h3 | h3
    · refine ⟨migratedSave u t v ("pending_" ++ toString w.nextId), ?_, rfl, rfl⟩
      simp only [migrateEntry, h3, if_true, hpay, hpt, genId]
    · by_cases hsave : (p.getField "kind" == some (JVal.str "save")) = true
      · refine ⟨migratedSave u t v ("pending_" ++ toString w.nextId), ?_, rfl, rfl⟩
        simp only [migrateEntry, hsave, if_true, hpay, hpt, genId]
      · refine ⟨migratedUpdate t v ("pending_" ++ toString w.nextId), ?_, rfl, rfl⟩
        simp only [migrateEntry, hsave, Bool.false_eq_true, if_false, h3,
          if_true, hpay, hpt, genId]

theorem migrateAll_convertible {u : Option String} {t : Int} :
    ∀ (entries : List JVal) (w : World),
      (∀ p ∈ entries, convertible p = true) →
      ∃ items w1, migrateAll u t entries w = .ok (items, w1) ∧
        items.length = entries.length ∧
        (∀ it ∈ items, it.failures = none ∧ it.lastError = none) ∧
        w1.locals = w.locals ∧ w1.fallback = w.fallback ∧ w1.events = w.events := by
  intro entries
  induction entries with
  | nil =>
    intro w _
    exact ⟨[], w, rfl, rfl, by simp, rfl, rfl, rfl⟩
  | cons p ps ih =>
    intro w hconv
    obtain ⟨it, hent, hfn, hle⟩ :=
      migrateEntry_convertible (u := u) (t := t) w (hconv p (by simp))
    obtain ⟨items, w1, hall, hlen, hflags, hl, hf, he⟩ :=
      ih { w with nextId := w.nextId + 1 } (fun q hq => hconv q (by simp [hq]))
    refine ⟨it :: items, w1, ?_, by simp [hlen], ?_, hl, hf, he⟩
    · simp only [migrateAll, hent, hall]
    · intro x hx
      rcases List.mem_cons.1 hx with rfl | hx
      · exact ⟨hfn, hle⟩
      · exact hflags x hx

theorem normItem_of_none {it : PendingItem} (h1 : it.failures = none)
    (h2 : it.lastError = none) : normItem it = it := by
  rcases it with ⟨i, k, p, c, a, le, la, fs⟩
  simp only at h1 h2
  subst h1
  subst h2
  rcases la with _ | la <;> rfl

theorem persistOkWorld_locals_key (cfg : Config) (u : Option String)
    (items : List PendingItem) (w : World) :
    (persistOkWorld cfg u items w).locals (buildKey u) =
      some (.val (encodeItems (trimQueue items).1)) := by
  simp [persistOkWorld, upd_self]

theorem persistOkWorld_fallback_key (cfg : Config) (u : Option String)
    (items : List PendingItem) (w : World) :
    (persistOkWorld cfg u items w).fallback (buildKey u) = none := by
  simp [persistOkWorld, upd_self]

/-- C6: given a legacy-format (unversioned) key holding convertible entries
and no versioned key, one `readPendingOps` call returns as many items as
there are entries, persists them under the versioned key and deletes the
legacy key; a second call returns the same items with the world unchanged
(the migration logic is not re-invoked). -/
theorem claim_C6_idempotent_migration (cfg : Config) (u : Option String)
    (w : World) (entries : List JVal)
    (hp : cfg.hasLocalStorage = true) (hok : cfg.setOutcome = .ok)
    (hleg : w.locals (legacyKey u) = some (.val (.arr entries)))
    (hver : w.locals (buildKey u) = none)
    (hfb : w.fallback (buildKey u) = none)
    (hconv : ∀ p ∈ entries, convertible p = true)
    (hN : 0 < entries.length) (hN2 : entries.length ≤ MAX_QUEUE_SIZE) :
    ∃ items w1, readPendingOps cfg u w = (w1, items) ∧
      items.length = entries.length ∧
      w1.locals (legacyKey u) = none ∧
      w1.locals (buildKey u) = some (.val (encodeItems items)) ∧
      readPendingOps cfg u w1 = (w1, items) := by
  have hfilter : entries.filter legacyEntryKept = entries :=
    List.filter_eq_self.2 (fun p hp2 =>
      legacyEntryKept_of_convertible (hconv p hp2))
  obtain ⟨items, wA, hall, hlen, hflags, hlocA, hfbA, _⟩ :=
    migrateAll_convertible (u := u) (t := cfg.timeNow) entries w
      (fun p hp2 => hconv p hp2)
  have hNitems : 0 < items.length := by omega
  have htrim : trimQueue items = (items, 0) := trimQueue_of_le (by omega)
  have hrev : reviveLegacy cfg u w =
      ({ persistOkWorld cfg u items wA with
          locals := upd (persistOkWorld cfg u items wA).locals (legacyKey u) none },
        items) := by
    simp only [reviveLegacy, hp, Bool.true_eq_false, if_false, hleg, hfilter,
      hall, hNitems, if_pos, persist_ok hp hok]
  have hread1 : readPendingOps cfg u w = reviveLegacy cfg u w := by
    simp only [readPendingOps, hfb, hp, Bool.true_eq_false, if_false, hver]
  set w1 := { persistOkWorld cfg u items wA with
    locals := upd (persistOkWorld cfg u items wA).locals (legacyKey u) none }
    with hw1
  have hl1 : w1.locals (legacyKey u) = none := upd_self _ _ _
  have hl2 : w1.locals (buildKey u) = some (.val (encodeItems items)) := by
    rw [hw1]
    show upd (persistOkWorld cfg u items wA).locals (legacyKey u) none
      (buildKey u) = _
    rw [upd_other _ _ _ _ (buildKey_ne_legacyKey u),
      persistOkWorld_locals_key, htrim]
  have hf1 : w1.fallback (buildKey u) = none := by
    rw [hw1]
    exact persistOkWorld_fallback_key cfg u items wA
  have hgood : GoodWorld u items w1 :=
    ⟨hf1, hl1, Or.inl hl2, by omega⟩
  have hnorm : items.map normItem = items :=
    map_normItem_eq_self (fun x hx =>
      normItem_of_none (hflags x hx).1 (hflags x hx).2)
  refine ⟨items, w1, ?_, hlen, hl1, hl2, ?_⟩
  · rw [hread1, hrev]
  · rw [read_good hp hgood, hnorm]

/-! ### Trim notifications -/

def isTrimEvent (ev : SyncEvent) : Bool := ev.status.requestId == "queue-trim"

/-- Number of queue-trim notifications in an event trace. -/
def countTrim (evs : List SyncEvent) : Nat := (evs.filter isTrimEvent).length

theorem countTrim_append (a b : List SyncEvent) :
    countTrim (a ++ b) = countTrim a + countTrim b := by
  simp [countTrim, List.filter_append]

theorem countTrim_trimEvent (t : Int) (d : Nat) :
    countTrim [trimEvent t d] = 1 := rfl

theorem countTrim_quotaEvent (t : Int) : countTrim [quotaEvent t] = 0 := rfl

theorem notifyQueueTrim_events (t : Int) (d : Nat) (w : World) :
    (notifyQueueTrim t d w).events =
      w.events ++ (if d = 0 then [] else [trimEvent t d]) := by
  by_cases h : d = 0 <;> simp [notifyQueueTrim, publishSyncEvent, h]

/-- Every durable write that drops items publishes exactly one queue-trim
notification (and none otherwise); any further event published by the same
write (the quota warning) is not a queue-trim notification. -/
theorem persist_events {cfg : Config} (hp : cfg.hasLocalStorage = true)
    (items : List PendingItem) (u : Option String) (w : World) :
    ∃ extra, (persist cfg items u w).1.events =
      w.events ++
        (if (trimQueue items).2 = 0 then []
         else [trimEvent cfg.timeNow (trimQueue items).2]) ++ extra ∧
      countTrim extra = 0 := by
  cases hso : cfg.setOutcome with
  | ok =>
    refine ⟨[], ?_, rfl⟩
    rw [persist_ok hp hso items u w]
    show (persistOkWorld cfg u items w).events = _
    simp [persistOkWorld, notifyQueueTrim_events]
  | err e =>
    by_cases hf : isStorageFullError e = true
    · refine ⟨[quotaEvent cfg.timeNow], ?_, rfl⟩
      rw [persist_quota hp hso hf items u w]
      simp [publishSyncEvent, notifyQueueTrim_events]
    · refine ⟨[], ?_, rfl⟩
      rw [persist_err hp hso (by simpa using hf) items u w]
      simp [notifyQueueTrim_events]

/-- A read of an oversized stored queue trims it but publishes nothing: the
re-persist only sees the already-trimmed list. -/
theorem read_trim_silent {cfg : Config} {u : Option String} {w : World}
    {parsed : List JVal} (hp : cfg.hasLocalStorage = true)
    (hok : cfg.setOutcome = .ok)
    (hfb : w.fallback (buildKey u) = none)
    (hst : w.locals (buildKey u) = some (.val (.arr parsed)))
    (hbig : MAX_QUEUE_SIZE < (parsed.filterMap (decodeEntry cfg.timeNow)).length) :
    (readPendingOps cfg u w).1.events = w.events ∧
    (readPendingOps cfg u w).2.length = MAX_QUEUE_SIZE := by
  set hydrated := parsed.filterMap (decodeEntry cfg.timeNow) with hh
  have hgt : ¬ hydrated.length ≤ MAX_QUEUE_SIZE := by omega
  have htr : trimQueue hydrated =
      (hydrated.drop (hydrated.length - MAX_QUEUE_SIZE),
        hydrated.length - MAX_QUEUE_SIZE) := by
    simp [trimQueue, hgt]
  have hdpos : 0 < hydrated.length - MAX_QUEUE_SIZE := by omega
  have hlen100 : (hydrated.drop (hydrated.length - MAX_QUEUE_SIZE)).length =
      MAX_QUEUE_SIZE := by
    rw [List.length_drop]
    omega
  have hread : readPendingOps cfg u w =
      (persistOkWorld cfg u (hydrated.drop (hydrated.length - MAX_QUEUE_SIZE)) w,
        hydrated.drop (hydrated.length - MAX_QUEUE_SIZE)) := by
    simp only [readPendingOps, hfb, hp, Bool.true_eq_false, if_false, hst, ← hh,
      htr, hdpos, if_pos, persist_ok hp hok]
  rw [hread]
  constructor
  · show (persistOkWorld cfg u _ w).events = w.events
    have htr2 : (trimQueue (hydrated.drop (hydrated.length - MAX_QUEUE_SIZE))).2 = 0 := by
      rw [trimQueue_of_le (by omega)]
    simp [persistOkWorld, notifyQueueTrim_events, htr2]
  · exact hlen100

theorem mem_trimQueue_concat (l : List PendingItem) (x : PendingItem) :
    x ∈ (trimQueue (l ++ [x])).1 := by
  by_cases h : (l ++ [x]).length ≤ MAX_QUEUE_SIZE
  · have h2 : l.length + 1 ≤ MAX_QUEUE_SIZE := by simpa using h
    simp [trimQueue, h2]
  · simp only [trimQueue, if_neg h]
    have hd : (l ++ [x]).length - MAX_QUEUE_SIZE ≤ l.length := by
      simp only [List.length_append, List.length_cons, List.length_nil]
      simp [MAX_QUEUE_SIZE]
    rw [List.drop_append_of_le_length hd]
    simp

/-- C5: when every durable write throws a quota-exceeded error,
`enqueueSaveOperation` still completes without throwing and returns the
created item, and a subsequent `readPendingOps` for the same owner returns
a queue containing that item, served from the in-memory fallback. -/
theorem claim_C5_quota_fallback (cfg : Config) (e : JsError) (p : JVal)
    (u : Option String) (w : World) (hp : cfg.hasLocalStorage = true)
    (he : cfg.setOutcome = .err e) (hf : isStorageFullError e = true) :
    (enqueueSaveOperation cfg p u w).2 =
      .ok (freshItem (.str "save") p cfg.timeNow (readPendingOps cfg u w).1.nextId) ∧
    ∃ l, (enqueueSaveOperation cfg p u w).1.fallback (buildKey u) = some l ∧
      readPendingOps cfg u (enqueueSaveOperation cfg p u w).1 =
        ((enqueueSaveOperation cfg p u w).1, l) ∧
      freshItem (.str "save") p cfg.timeNow (readPendingOps cfg u w).1.nextId ∈ l := by
  have h2 : (enqueueSaveOperation cfg p u w).1.fallback (buildKey u) =
      some (trimQueue ((readPendingOps cfg u w).2 ++
        [freshItem (.str "save") p cfg.timeNow (readPendingOps cfg u w).1.nextId])).1 := by
    simp only [enqueueSaveOperation, genId, persist_quota hp he hf, freshItem]
    simp [publishSyncEvent, upd_self]
  refine ⟨?_, (trimQueue ((readPendingOps cfg u w).2 ++
      [freshItem (.str "save") p cfg.timeNow (readPendingOps cfg u w).1.nextId])).1,
    h2, ?_, mem_trimQueue_concat _ _⟩
  · simp only [enqueueSaveOperation, genId, persist_quota hp he hf, freshItem]
  · simp only [readPendingOps, h2]

/-- C10: if the durable write inside an enqueue call fails with a non-quota
error, the call throws a `PersistError` carrying the cause, and the owner's
observable queue is exactly what it was before the call — the new item is
not appended, and (for updates) no replaced update item is removed. -/
theorem claim_C10_enqueue_atomicity (cfg : Config) (e : JsError) (p up : JVal)
    (pid : String) (u : Option String) {q : List PendingItem} {w : World}
    (hp : cfg.hasLocalStorage = true) (he : cfg.setOutcome = .err e)
    (hnf : isStorageFullError e = false) (hg : GoodWorld u q w) :
    readPendingOps cfg u w = (w, q.map normItem) ∧
    ((enqueueSaveOperation cfg p u w).2 = .error ⟨persistErrMessage, e⟩ ∧
      readPendingOps cfg u (enqueueSaveOperation cfg p u w).1 =
        ((enqueueSaveOperation cfg p u w).1, q.map normItem)) ∧
    ((enqueueUpdateOperation cfg pid up u w).2 = .error ⟨persistErrMessage, e⟩ ∧
      readPendingOps cfg u (enqueueUpdateOperation cfg pid up u w).1 =
        ((enqueueUpdateOperation cfg pid up u w).1, q.map normItem)) := by
  have hgN : ∀ d wx, GoodWorld u q wx →
      GoodWorld u q (notifyQueueTrim cfg.timeNow d { wx with nextId := wx.nextId + 1 }) := by
    intro d wx hgx
    refine ⟨?_, ?_, ?_, hgx.len⟩
    · rw [notifyQueueTrim_fallback]
      exact hgx.fb
    · rw [notifyQueueTrim_locals]
      exact hgx.leg
    · rw [notifyQueueTrim_locals]
      exact hgx.stored
  have hEs : enqueueSaveOperation cfg p u w =
      (notifyQueueTrim cfg.timeNow
        (trimQueue (q.map normItem ++
          [freshItem (.str "save") p cfg.timeNow w.nextId])).2
        { w with nextId := w.nextId + 1 },
       .error ⟨persistErrMessage, e⟩) := by
    simp only [enqueueSaveOperation, genId, read_good hp hg,
      persist_err hp he hnf, freshItem]
  have hEu : enqueueUpdateOperation cfg pid up u w =
      (notifyQueueTrim cfg.timeNow
        (trimQueue ((q.map normItem).filter (fun it => !isUpdateFor pid it) ++
          [freshItem (.str "update") (.obj [("id", JVal.str pid), ("update", up)])
            cfg.timeNow w.nextId])).2
        { w with nextId := w.nextId + 1 },
       .error ⟨persistErrMessage, e⟩) := by
    simp only [enqueueUpdateOperation, genId, read_good hp hg,
      persist_err hp he hnf, freshItem]
  refine ⟨read_good hp hg, ⟨?_, ?_⟩, ⟨?_, ?_⟩⟩
  · rw [hEs]
  · rw [hEs]
    exact read_good hp (hgN _ w hg)
  · rw [hEu]
  · rw [hEu]
    exact read_good hp (hgN _ w hg)

def isArr : JVal → Bool
  | .arr _ => true
  | _ => false

/-- C8: `readPendingOps` never throws — with the storage backend absent it
returns the empty list; a malformed or non-array stored value yields the
empty list; a stored array yields the validated-and-trimmed list, or the
empty list when the trim's re-persist fails (the error is swallowed). -/
theorem claim_C8_read_never_throws (cfg : Config) (u : Option String) (w : World)
    (hfb : w.fallback (buildKey u) = none) :
    (cfg.hasLocalStorage = false → readPendingOps cfg u w = (w, [])) ∧
    (cfg.hasLocalStorage = true → w.locals (buildKey u) = some .malformed →
      readPendingOps cfg u w = (w, [])) ∧
    (∀ j, cfg.hasLocalStorage = true → w.locals (buildKey u) = some (.val j) →
      isArr j = false → readPendingOps cfg u w = (w, [])) ∧
    (∀ parsed, cfg.hasLocalStorage = true →
      w.locals (buildKey u) = some (.val (.arr parsed)) →
      (readPendingOps cfg u w).2 =
          (trimQueue (parsed.filterMap (decodeEntry cfg.timeNow))).1 ∨
        (readPendingOps cfg u w).2 = []) := by
  refine ⟨?_, ?_, ?_, ?_⟩
  · intro hp
    simp [readPendingOps, hfb, hp]
  · intro hp hst
    simp [readPendingOps, hfb, hp, hst]
  · intro j hp hst hj
    cases j <;> simp_all [isArr, readPendingOps]
  · intro parsed hp hst
    simp only [readPendingOps, hfb, hp, Bool.true_eq_false, if_false, hst]
    by_cases hdrop : 0 < (trimQueue (parsed.filterMap (decodeEntry cfg.timeNow))).2
    · rcases hper : persist cfg
          (trimQueue (parsed.filterMap (decodeEntry cfg.timeNow))).1 u w with
        ⟨w1, res⟩
      cases res with
      | ok b => left; simp [hdrop, hper]
      | error pe => right; simp [hdrop, hper]
    · left
      simp [hdrop]

/-! ### Single-item always-reject scenario (shared by the C1/C9 analyses) -/

/-- The world after one save enqueue holds exactly that item. -/
theorem read_saveSeq_one {cfg : Config} {u : Option String}
    (hp : cfg.hasLocalStorage = true) (hok : cfg.setOutcome = .ok) (p : JVal) :
    readPendingOps cfg u (saveSeq cfg p u 1 emptyWorld) =
      (saveSeq cfg p u 1 emptyWorld, [normSave p cfg.timeNow 0]) := by
  obtain ⟨q1, hg1, hn1, ht1⟩ := saveSeq_inv (u := u) hp hok p 1
  rw [read_good hp hg1, ht1]
  have h1 : saveTarget p cfg.timeNow 1 = [normSave p cfg.timeNow 0] := by
    simp [saveTarget, List.range_succ, MAX_QUEUE_SIZE]
  rw [h1]

/-- Full run on the one-item world with an always-rejecting execute:
returns an empty remainder, records `k` retry waits at consecutive
zero-based attempt indices, `k + 1` backoff computations, and one terminal
failure with a capped failure log. -/
theorem process_singleFail {cfg : Config} {u : Option String}
    (hp : cfg.hasLocalStorage = true) (hok : cfg.setOutcome = .ok)
    (p : JVal) (e : ExecError) (df : Int → Int → Int) (b m : Int) (k : Nat)
    (hk : (m - 1).toNat = k) :
    ∃ w2 log2,
      processPendingOps cfg
        { userId := u, maxAttempts := some m, backoffMs := some b,
          delayFn := df, execute := fun _ => .error e, aborted := false }
        (saveSeq cfg p u 1 emptyWorld) = .ok [] w2 log2 ∧
      log2.backoffCalls = (List.range (k + 1)).map (fun j => Int.ofNat j) ∧
      log2.retryWaits = (List.range k).map
        (fun j => (Int.ofNat j, df b (Int.ofNat j))) ∧
      log2.successes = [] ∧
      ∃ fin : PendingItem × String, log2.permanentFailures = [fin] ∧
        fin.2 = e.message ∧
        (fin.1.failures.getD []).length = min (k + 1) MAX_FAILURE_LOG := by
  have hk0 : (m - (normSave p cfg.timeNow 0).attempts - 1).toNat = k := by
    show (m - 0 - 1).toNat = k
    simpa using hk
  obtain ⟨w2, log2, hgo, hbc, hrw2, hsc, fin, hpf, hmsg, hat, hfl⟩ :=
    processGo_single_reject hp hok m b df u e (fun _ => .error e) (fun _ => rfl) k
      (normSave p cfg.timeNow 0) (saveSeq cfg p u 1 emptyWorld) emptyLog
      (queueFuel m [normSave p cfg.timeNow 0]) hk0 le_rfl
  have hread := read_saveSeq_one (u := u) hp hok p
  have hPP : processPendingOps cfg
      { userId := u, maxAttempts := some m, backoffMs := some b,
        delayFn := df, execute := fun _ => .error e, aborted := false }
      (saveSeq cfg p u 1 emptyWorld) =
      processGo cfg m b df (fun _ => .error e) u false
        (queueFuel m [normSave p cfg.timeNow 0]) [normSave p cfg.timeNow 0]
        (saveSeq cfg p u 1 emptyWorld) emptyLog := by
    simp only [processPendingOps, Option.getD_some, hread]
  refine ⟨w2, log2, by rw [hPP]; exact hgo, ?_, ?_,
    by simpa [emptyLog] using hsc, fin, by simpa [emptyLog] using hpf, hmsg, ?_⟩
  · rw [hbc]
    simp [emptyLog, normSave]
  · rw [hrw2]
    simp [emptyLog, normSave]
  · rw [hfl]
    simp [normSave]

/-- C1: for a queue containing exactly one item with `attempts = 0`
(produced by a single enqueue into an empty store), running
`processPendingOps` with `maxAttempts = 2` and an execute callback that
always rejects returns an empty remainder list, invokes
`onPermanentFailure` exactly once, and the item passed to
`onPermanentFailure` carries a failure log of exactly 2 entries. -/
theorem claim_C1_retry_termination (cfg : Config) (p : JVal) (u : Option String)
    (e : ExecError) (df : Int → Int → Int) (b : Int)
    (hp : cfg.hasLocalStorage = true) (hok : cfg.setOutcome = .ok) :
    ∃ op, (enqueueSaveOperation cfg p u emptyWorld).2 = .ok op ∧
      op.attempts = 0 ∧
      readPendingOps cfg u (enqueueSaveOperation cfg p u emptyWorld).1 =
        ((enqueueSaveOperation cfg p u emptyWorld).1, [normItem op]) ∧
      ∃ w2 log2,
        processPendingOps cfg
          { userId := u, maxAttempts := some 2, backoffMs := some b,
            delayFn := df, execute := fun _ => .error e, aborted := false }
          (enqueueSaveOperation cfg p u emptyWorld).1 = .ok [] w2 log2 ∧
        log2.permanentFailures.length = 1 ∧
        ∀ pf ∈ log2.permanentFailures,
          pf.2 = e.message ∧ (pf.1.failures.getD []).length = 2 := by
  refine ⟨freshItem (.str "save") p cfg.timeNow emptyWorld.nextId, ?_, rfl, ?_, ?_⟩
  · rw [enqueueSave_eq hp hok (goodWorld_empty u) p]
  · show readPendingOps cfg u (saveSeq cfg p u 1 emptyWorld) =
      (saveSeq cfg p u 1 emptyWorld,
        [normItem (freshItem (.str "save") p cfg.timeNow 0)])
    rw [read_saveSeq_one (u := u) hp hok p, normItem_freshSave]
  · obtain ⟨w2, log2, hgo, _, _, _, fin, hpf, hmsg, hflen⟩ :=
      process_singleFail (u := u) hp hok p e df b 2 1 rfl
    refine ⟨w2, log2, hgo, by rw [hpf]; rfl, ?_⟩
    intro pf hmem
    rw [hpf] at hmem
    simp only [List.mem_singleton] at hmem
    subst hmem
    refine ⟨hmsg, ?_⟩
    rw [hflen]
    decide

/-- C9: during a `processPendingOps` run, each retryable failure of an item
computes its backoff delay with an attempt index equal to the zero-based
count of that item's prior failed attempts in this retry sequence — the
recorded backoff computations use the consecutive indices `0, 1, …`, and
the first retry uses index `0` (the base delay). -/
theorem claim_C9_backoff_attempt_index (cfg : Config) (p : JVal)
    (u : Option String) (e : ExecError) (df : Int → Int → Int) (b m : Int)
    (hp : cfg.hasLocalStorage = true) (hok : cfg.setOutcome = .ok) :
    ∃ w2 log2,
      processPendingOps cfg
        { userId := u, maxAttempts := some m, backoffMs := some b,
          delayFn := df, execute := fun _ => .error e, aborted := false }
        (saveSeq cfg p u 1 emptyWorld) = .ok [] w2 log2 ∧
      log2.retryWaits = (List.range (m - 1).toNat).map
        (fun j => (Int.ofNat j, df b (Int.ofNat j))) ∧
      log2.backoffCalls = (List.range ((m - 1).toNat + 1)).map
        (fun j => Int.ofNat j) ∧
      (2 ≤ m → log2.retryWaits.head? = some (0, df b 0)) := by
  obtain ⟨w2, log2, hgo, hbc, hrw, _, _⟩ :=
    process_singleFail (u := u) hp hok p e df b m ((m - 1).toNat) rfl
  refine ⟨w2, log2, hgo, hrw, hbc, ?_⟩
  intro h2
  obtain ⟨n, hn⟩ : ∃ n, (m - 1).toNat = n + 1 :=
    ⟨(m - 1).toNat - 1, by omega⟩
  rw [hrw, hn, List.range_succ_eq_map]
  simp

/-- C2: after any sequence of enqueue calls starting from an empty store,
the observable queue contains at most one update item per target entity
id; and enqueueing two updates with the same target id back-to-back
yields a queue with exactly one item for that id, carrying the payload of
the second call, at the position of the (removed) first. -/
theorem claim_C2_update_replacement (cfg : Config) (u : Option String)
    (hp : cfg.hasLocalStorage = true) (hok : cfg.setOutcome = .ok) :
    (∀ (ops : List EnqOp) (pid : String),
      ((readPendingOps cfg u (runEnqs cfg u ops emptyWorld)).2.filter
        (isUpdateFor pid)).length ≤ 1) ∧
    (∀ (q : List PendingItem) (w : World), GoodWorld u q w →
      ∀ (pid : String) (p1 p2 : JVal),
      ∃ op2 : PendingItem,
        (enqueueUpdateOperation cfg pid p2 u
            (enqueueUpdateOperation cfg pid p1 u w).1).2 = .ok op2 ∧
        op2.payload.getField "update" = some p2 ∧
        isUpdateFor pid op2 = true ∧
        (readPendingOps cfg u (enqueueUpdateOperation cfg pid p2 u
            (enqueueUpdateOperation cfg pid p1 u w).1).1).2 =
          (readPendingOps cfg u
            (enqueueUpdateOperation cfg pid p1 u w).1).2.dropLast ++
            [normItem op2] ∧
        ((readPendingOps cfg u (enqueueUpdateOperation cfg pid p2 u
            (enqueueUpdateOperation cfg pid p1 u w).1).1).2.filter
              (isUpdateFor pid)).length = 1) := by
  constructor
  · intro ops pid
    obtain ⟨q2, hg2, hu2⟩ := runEnqs_inv hp hok ops emptyWorld []
      (goodWorld_empty u) (fun pid0 => by simp)
    rw [read_good hp hg2]
    exact updOk_map_normItem hu2 pid
  · intro q w hg pid p1 p2
    exact updateTwice hp hok hg pid p1 p2

/-- C4 (amended): whenever the storage layer itself is benign (absent,
succeeding, or failing only with quota errors — which divert to the
in-memory fallback), `processPendingOps` never throws: every rejection
from the injected execute callback is absorbed into return values, state
mutations, and callback invocations. The unqualified original claim is
false: the replay loop's catch handler re-persists the queue, and a fatal
durable write failure there escapes `processPendingOps` as a
`PersistError` (see the counterexample). -/
theorem claim_C4_process_absorbs (cfg : Config) (opts : ProcOpts) (w : World)
    (hs : persistSafe cfg) :
    ∃ q2 w2 log2, processPendingOps cfg opts w = .ok q2 w2 log2 := by
  unfold processPendingOps
  exact processGo_ok hs _ _ _ _ _ _ _ _ _ _ le_rfl

def fatalError : JsError := ⟨"SecurityError", "denied", none⟩

def cfgFatal : Config := ⟨true, .err fatalError, 0⟩

/-- A world whose backend stores `v` (already JSON-encoded) under `k`. -/
def withStored (w : World) (k : String) (v : JVal) : World :=
  { w with locals := upd w.locals k (some (.val v)) }

def seededWorld : World :=
  withStored emptyWorld (buildKey none) (encodeItems [normSave .null 0 0])

def okOpts : ProcOpts :=
  { userId := none, maxAttempts := none, backoffMs := none,
    delayFn := fun _ _ => 0, execute := fun _ => .ok (), aborted := false }

/-- C4 (counterexample to the original claim): with one queued item whose
execution succeeds, a fatal (non-quota) durable write failure inside the
replay loop escapes `processPendingOps` as a thrown `PersistError`, so
`processPendingOps` can throw. -/
theorem claim_C4_counterexample :
    (processPendingOps cfgFatal okOpts seededWorld).isThrown = true := by
  decide

/-- C7 (amended): every durable write that drops items publishes exactly
one queue-trim notification (and writes that drop nothing publish none);
but the read path is silent — reading an oversized stored queue trims it
to the cap without publishing any notification, because the re-persist
only sees the already-trimmed list (see the counterexample). -/
theorem claim_C7_trim_notification (cfg : Config) (items : List PendingItem)
    (u : Option String) (w : World) (hp : cfg.hasLocalStorage = true) :
    ((trimQueue items).2 ≠ 0 →
      countTrim (persist cfg items u w).1.events = countTrim w.events + 1) ∧
    ((trimQueue items).2 = 0 →
      countTrim (persist cfg items u w).1.events = countTrim w.events) ∧
    (∀ (parsed : List JVal) (w2 : World), cfg.setOutcome = .ok →
      w2.fallback (buildKey u) = none →
      w2.locals (buildKey u) = some (.val (.arr parsed)) →
      MAX_QUEUE_SIZE < (parsed.filterMap (decodeEntry cfg.timeNow)).length →
      (readPendingOps cfg u w2).1.events = w2.events ∧
      (readPendingOps cfg u w2).2.length = MAX_QUEUE_SIZE) := by
  obtain ⟨extra, hev, hex⟩ := persist_events hp items u w
  refine ⟨?_, ?_, fun parsed w2 hok hfb hst hbig =>
    read_trim_silent hp hok hfb hst hbig⟩
  · intro hd
    rw [hev, countTrim_append, countTrim_append, if_neg hd,
      countTrim_trimEvent, hex]
  · intro hd
    rw [hev, countTrim_append, countTrim_append, if_pos hd, hex]
    simp [countTrim]

def cfgPlain : Config := ⟨true, .ok, 0⟩

def bigStoredWorld : World :=
  withStored emptyWorld (buildKey none)
    (encodeItems ((List.range 101).map (normSave .null 0)))

/-- C7 (counterexample to the original claim): a read of a stored queue of
101 entries applies the cap and drops one item, yet publishes no
queue-trim notification at all. -/
theorem claim_C7_counterexample :
    countTrim (readPendingOps cfgPlain none bigStoredWorld).1.events = 0 ∧
    (readPendingOps cfgPlain none bigStoredWorld).2.length = MAX_QUEUE_SIZE := by
  have hst : bigStoredWorld.locals (buildKey none) =
      some (.val (.arr (((List.range 101).map (normSave .null 0)).map
        encodeItem))) := by
    simp [bigStoredWorld, withStored, upd_self, encodeItems]
  have hbig : MAX_QUEUE_SIZE <
      ((((List.range 101).map (normSave .null 0)).map encodeItem).filterMap
        (decodeEntry cfgPlain.timeNow)).length := by
    rw [decodeItems_encodeItems]
    simp [MAX_QUEUE_SIZE]
  have h := @read_trim_silent cfgPlain none bigStoredWorld
    (((List.range 101).map (normSave .null 0)).map encodeItem) rfl rfl rfl hst hbig
  refine ⟨?_, h.2⟩
  rw [h.1]
  rfl

/-! ### Concrete instances for the claim theorems -/

def quotaError : JsError := ⟨"QuotaExceededError", "quota", none⟩

def cfgQuota : Config := ⟨true, .err quotaError, 0⟩

def legacyEntry : JVal :=
  .obj [("kind", .str "save"), ("payload", .obj [("name", .str "Old")])]

def legacyWorld : World :=
  withStored emptyWorld (legacyKey none) (.arr [legacyEntry])

theorem claim_C1_retry_termination_witness :
    cfgPlain.hasLocalStorage = true ∧ cfgPlain.setOutcome = .ok ∧
    (∃ op, (enqueueSaveOperation cfgPlain .null none emptyWorld).2 = .ok op ∧
      op.attempts = 0 ∧
      readPendingOps cfgPlain none
        (enqueueSaveOperation cfgPlain .null none emptyWorld).1 =
        ((enqueueSaveOperation cfgPlain .null none emptyWorld).1, [normItem op]) ∧
      ∃ w2 log2,
        processPendingOps cfgPlain
          { userId := none, maxAttempts := some 2, backoffMs := some 0,
            delayFn := fun _ _ => 0, execute := fun _ => .error ⟨"boom", none⟩,
            aborted := false }
          (enqueueSaveOperation cfgPlain .null none emptyWorld).1 = .ok [] w2 log2 ∧
        log2.permanentFailures.length = 1 ∧
        ∀ pf ∈ log2.permanentFailures,
          pf.2 = "boom" ∧ (pf.1.failures.getD []).length = 2) :=
  ⟨rfl, rfl, claim_C1_retry_termination cfgPlain .null none ⟨"boom", none⟩
    (fun _ _ => 0) 0 rfl rfl⟩

theorem claim_C2_update_replacement_witness :
    cfgPlain.hasLocalStorage = true ∧ cfgPlain.setOutcome = .ok ∧
    ((∀ (ops : List EnqOp) (pid : String),
      ((readPendingOps cfgPlain none (runEnqs cfgPlain none ops emptyWorld)).2.filter
        (isUpdateFor pid)).length ≤ 1) ∧
    (∀ (q : List PendingItem) (w : World), GoodWorld none q w →
      ∀ (pid : String) (p1 p2 : JVal),
      ∃ op2 : PendingItem,
        (enqueueUpdateOperation cfgPlain pid p2 none
            (enqueueUpdateOperation cfgPlain pid p1 none w).1).2 = .ok op2 ∧
        op2.payload.getField "update" = some p2 ∧
        isUpdateFor pid op2 = true ∧
        (readPendingOps cfgPlain none (enqueueUpdateOperation cfgPlain pid p2 none
            (enqueueUpdateOperation cfgPlain pid p1 none w).1).1).2 =
          (readPendingOps cfgPlain none
            (enqueueUpdateOperation cfgPlain pid p1 none w).1).2.dropLast ++
            [normItem op2] ∧
        ((readPendingOps cfgPlain none (enqueueUpdateOperation cfgPlain pid p2 none
            (enqueueUpdateOperation cfgPlain pid p1 none w).1).1).2.filter
              (isUpdateFor pid)).length = 1)) :=
  ⟨rfl, rfl, claim_C2_update_replacement cfgPlain none rfl rfl⟩

theorem claim_C3_eviction_witness :
    cfgPlain.hasLocalStorage = true ∧ cfgPlain.setOutcome = .ok ∧
    ((enqueueSaveOperation cfgPlain .null none
        (saveSeq cfgPlain .null none 1 emptyWorld)).2 =
        .ok (freshItem (.str "save") .null cfgPlain.timeNow 1) ∧
      (readPendingOps cfgPlain none
        (saveSeq cfgPlain .null none 101 emptyWorld)).2.length = 100 ∧
      (readPendingOps cfgPlain none
        (saveSeq cfgPlain .null none 101 emptyWorld)).2.head? =
        some (normItem (freshItem (.str "save") .null cfgPlain.timeNow 1)) ∧
      ∀ it ∈ (readPendingOps cfgPlain none
          (saveSeq cfgPlain .null none 101 emptyWorld)).2,
        it.id ≠ (freshItem (.str "save") .null cfgPlain.timeNow 0).id) :=
  ⟨rfl, rfl, claim_C3_eviction cfgPlain .null none rfl rfl⟩

theorem claim_C4_process_absorbs_witness :
    persistSafe cfgPlain ∧
    ∃ q2 w2 log2, processPendingOps cfgPlain okOpts emptyWorld = .ok q2 w2 log2 :=
  ⟨Or.inr (Or.inl rfl),
    claim_C4_process_absorbs cfgPlain okOpts emptyWorld (Or.inr (Or.inl rfl))⟩

theorem claim_C5_quota_fallback_witness :
    cfgQuota.hasLocalStorage = true ∧ cfgQuota.setOutcome = .err quotaError ∧
    isStorageFullError quotaError = true ∧
    ((enqueueSaveOperation cfgQuota .null none emptyWorld).2 =
      .ok (freshItem (.str "save") .null cfgQuota.timeNow
        (readPendingOps cfgQuota none emptyWorld).1.nextId) ∧
    ∃ l, (enqueueSaveOperation cfgQuota .null none emptyWorld).1.fallback
        (buildKey none) = some l ∧
      readPendingOps cfgQuota none
        (enqueueSaveOperation cfgQuota .null none emptyWorld).1 =
        ((enqueueSaveOperation cfgQuota .null none emptyWorld).1, l) ∧
      freshItem (.str "save") .null cfgQuota.timeNow
        (readPendingOps cfgQuota none emptyWorld).1.nextId ∈ l) :=
  ⟨rfl, rfl, by decide, claim_C5_quota_fallback cfgQuota quotaError .null none
    emptyWorld rfl rfl (by decide)⟩

theorem claim_C6_idempotent_migration_witness :
    cfgPlain.hasLocalStorage = true ∧ cfgPlain.setOutcome = .ok ∧
    legacyWorld.locals (legacyKey none) = some (.val (.arr [legacyEntry])) ∧
    legacyWorld.locals (buildKey none) = none ∧
    legacyWorld.fallback (buildKey none) = none ∧
    (∀ p ∈ [legacyEntry], convertible p = true) ∧
    0 < [legacyEntry].length ∧ [legacyEntry].length ≤ MAX_QUEUE_SIZE ∧
    (∃ items w1, readPendingOps cfgPlain none legacyWorld = (w1, items) ∧
      items.length = [legacyEntry].length ∧
      w1.locals (legacyKey none) = none ∧
      w1.locals (buildKey none) = some (.val (encodeItems items)) ∧
      readPendingOps cfgPlain none w1 = (w1, items)) :=
  ⟨rfl, rfl, rfl, rfl, rfl, by decide, by decide, by decide,
    claim_C6_idempotent_migration cfgPlain none legacyWorld [legacyEntry]
      rfl rfl rfl rfl rfl (by decide) (by decide) (by decide)⟩

theorem claim_C7_trim_notification_witness :
    cfgPlain.hasLocalStorage = true ∧
    (((trimQueue ([] : List PendingItem)).2 ≠ 0 →
      countTrim (persist cfgPlain [] none emptyWorld).1.events =
        countTrim emptyWorld.events + 1) ∧
    ((trimQueue ([] : List PendingItem)).2 = 0 →
      countTrim (persist cfgPlain [] none emptyWorld).1.events =
        countTrim emptyWorld.events) ∧
    (∀ (parsed : List JVal) (w2 : World), cfgPlain.setOutcome = .ok →
      w2.fallback (buildKey none) = none →
      w2.locals (buildKey none) = some (.val (.arr parsed)) →
      MAX_QUEUE_SIZE < (parsed.filterMap (decodeEntry cfgPlain.timeNow)).length →
      (readPendingOps cfgPlain none w2).1.events = w2.events ∧
      (readPendingOps cfgPlain none w2).2.length = MAX_QUEUE_SIZE)) :=
  ⟨rfl, claim_C7_trim_notification cfgPlain [] none emptyWorld rfl⟩

theorem claim_C8_read_never_throws_witness :
    emptyWorld.fallback (buildKey none) = none ∧
    ((cfgPlain.hasLocalStorage = false →
      readPendingOps cfgPlain none emptyWorld = (emptyWorld, [])) ∧
    (cfgPlain.hasLocalStorage = true →
      emptyWorld.locals (buildKey none) = some .malformed →
      readPendingOps cfgPlain none emptyWorld = (emptyWorld, [])) ∧
    (∀ j, cfgPlain.hasLocalStorage = true →
      emptyWorld.locals (buildKey none) = some (.val j) →
      isArr j = false → readPendingOps cfgPlain none emptyWorld = (emptyWorld, [])) ∧
    (∀ parsed, cfgPlain.hasLocalStorage = true →
      emptyWorld.locals (buildKey none) = some (.val (.arr parsed)) →
      (readPendingOps cfgPlain none emptyWorld).2 =
          (trimQueue (parsed.filterMap (decodeEntry cfgPlain.timeNow))).1 ∨
        (readPendingOps cfgPlain none emptyWorld).2 = [])) :=
  ⟨rfl, claim_C8_read_never_throws cfgPlain none emptyWorld rfl⟩

theorem claim_C9_backoff_attempt_index_witness :
    cfgPlain.hasLocalStorage = true ∧ cfgPlain.setOutcome = .ok ∧
    (∃ w2 log2,
      processPendingOps cfgPlain
        { userId := none, maxAttempts := some 3, backoffMs := some 7,
          delayFn := fun _ _ => 5, execute := fun _ => .error ⟨"boom", none⟩,
          aborted := false }
        (saveSeq cfgPlain .null none 1 emptyWorld) = .ok [] w2 log2 ∧
      log2.retryWaits = (List.range ((3 : Int) - 1).toNat).map
        (fun j => (Int.ofNat j, (5 : Int))) ∧
      log2.backoffCalls = (List.range (((3 : Int) - 1).toNat + 1)).map
        (fun j => Int.ofNat j) ∧
      (2 ≤ (3 : Int) → log2.retryWaits.head? = some (0, 5))) :=
  ⟨rfl, rfl, claim_C9_backoff_attempt_index cfgPlain .null none ⟨"boom", none⟩
    (fun _ _ => 5) 7 3 rfl rfl⟩

theorem claim_C10_enqueue_atomicity_witness :
    cfgFatal.hasLocalStorage = true ∧ cfgFatal.setOutcome = .err fatalError ∧
    isStorageFullError fatalError = false ∧ GoodWorld none [] emptyWorld ∧
    (readPendingOps cfgFatal none emptyWorld = (emptyWorld, List.map normItem []) ∧
    ((enqueueSaveOperation cfgFatal .null none emptyWorld).2 =
        .error ⟨persistErrMessage, fatalError⟩ ∧
      readPendingOps cfgFatal none
        (enqueueSaveOperation cfgFatal .null none emptyWorld).1 =
        ((enqueueSaveOperation cfgFatal .null none emptyWorld).1,
          List.map normItem [])) ∧
    ((enqueueUpdateOperation cfgFatal "x" .null none emptyWorld).2 =
        .error ⟨persistErrMessage, fatalError⟩ ∧
      readPendingOps cfgFatal none
        (enqueueUpdateOperation cfgFatal "x" .null none emptyWorld).1 =
        ((enqueueUpdateOperation cfgFatal "x" .null none emptyWorld).1,
          List.map normItem []))) :=
  ⟨rfl, rfl, by decide, goodWorld_empty none,
    claim_C10_enqueue_atomicity cfgFatal fatalError .null .null "x" none rfl rfl
      (by decide) (goodWorld_empty none)⟩

end PendingQueue
